import Mathlib

/-!
Shallow embedding of the HighwayHash repository (google/highwayhash) and proofs
about it.

Machine integers are modelled as `Nat` with explicit reduction `% 2^64`
(resp. `% 2^32`) wherever the C++ code performs arithmetic on `uint64_t`
(resp. `uint32_t`).  Byte memory is modelled as `Nat → Nat`; a byte read
applies `% 256` (the code reads through `char` pointers; we model bytes as
unsigned octet values).  Byte strings handed to the incremental (Cat) API are
`List Nat`, turned into memories with `byteOf`.

Sections:
 * basic 64-bit helpers
 * portable HighwayHash state (src/highwayhash/hh_portable.h)
 * AVX2 HighwayHash state (src/highwayhash/hh_avx2.h; the V4x64U vector
   wrapper lives in vector256.h which is not under src/, so the lane-level
   semantics of the intrinsics are modelled from the spec)
 * hash driver and Cat (src/highwayhash/highwayhash.h)
 * SipHash (src/highwayhash/sip_hash.h, state_helpers.h)
 * SipTreeHash, scalar and SIMD (scalar_sip_tree_hash.cc, sip_tree_hash.cc)
 * dispatcher (src/highwayhash/instruction_sets.h)
 * the claim theorems
-/

/-- 2^64, the modulus of `uint64_t` arithmetic. -/
def M64 : Nat := 2 ^ 64

/-- 2^32, the modulus of `uint32_t` arithmetic. -/
def M32 : Nat := 2 ^ 32

/-- Byte memory built from a byte string: index `i` holds the `i`-th list
element reduced to an octet (out-of-range indices read as 0; the theorems
below establish that in-range reads are the only ones that matter). -/
def byteOf (l : List Nat) : Nat → Nat := fun i => l.getD i 0 % 256

/-- Little-endian 32-bit load at byte offset `i` of memory `m`. -/
def r32 (m : Nat → Nat) (i : Nat) : Nat :=
  m i % 256 + m (i + 1) % 256 * 2 ^ 8 + m (i + 2) % 256 * 2 ^ 16 + m (i + 3) % 256 * 2 ^ 24

/-- Little-endian 64-bit load at byte offset `i` of memory `m`. -/
def r64 (m : Nat → Nat) (i : Nat) : Nat :=
  r32 m i + r32 m (i + 4) * 2 ^ 32

/-- Four 64-bit lanes (lane 0 = lowest / first in memory), the contents of one
256-bit register or a `uint64_t[4]`. -/
structure Lanes64 where
  l0 : Nat
  l1 : Nat
  l2 : Nat
  l3 : Nat
deriving DecidableEq

/-- All four lanes are valid `uint64_t` values. -/
def Lanes64.bounded (v : Lanes64) : Prop :=
  v.l0 < M64 ∧ v.l1 < M64 ∧ v.l2 < M64 ∧ v.l3 < M64

instance (v : Lanes64) : Decidable v.bounded := by
  unfold Lanes64.bounded
  infer_instance

/-- Lanewise unary map. -/
def Lanes64.map (f : Nat → Nat) (v : Lanes64) : Lanes64 :=
  ⟨f v.l0, f v.l1, f v.l2, f v.l3⟩

/-- Lanewise binary map. -/
def Lanes64.map2 (f : Nat → Nat → Nat) (a b : Lanes64) : Lanes64 :=
  ⟨f a.l0 b.l0, f a.l1 b.l1, f a.l2 b.l2, f a.l3 b.l3⟩

/-- Lanewise `uint64_t` addition. -/
def addL (a b : Lanes64) : Lanes64 :=
  Lanes64.map2 (fun x y => (x + y) % M64) a b

/-- Lanewise XOR. -/
def xorL (a b : Lanes64) : Lanes64 :=
  Lanes64.map2 (fun x y => x ^^^ y) a b

/-- The 32-byte packet at byte offset `off`, read as four little-endian
`uint64_t` lanes (both implementations load packets this way: the portable
code through `reinterpret_cast<const Lanes*>`, AVX2 through an unaligned
256-bit load). -/
def packetAt (m : Nat → Nat) (off : Nat) : Lanes64 :=
  ⟨r64 m off, r64 m (off + 8), r64 m (off + 16), r64 m (off + 24)⟩

/-- The HighwayHash state: four 256-bit registers of four 64-bit lanes. -/
structure HHSt where
  v0 : Lanes64
  v1 : Lanes64
  mul0 : Lanes64
  mul1 : Lanes64
deriving DecidableEq

/-- All registers hold valid `uint64_t` lanes. -/
def HHSt.bounded (s : HHSt) : Prop :=
  s.v0.bounded ∧ s.v1.bounded ∧ s.mul0.bounded ∧ s.mul1.bounded

instance (s : HHSt) : Decidable s.bounded := by
  unfold HHSt.bounded
  infer_instance

namespace Portable

/-- `init0` of `HHState<TargetPortable>` (hh_portable.h), array order:
index 0 first. -/
def init0P : Lanes64 :=
  ⟨0xdbe6d5d5fe4cce2f, 0xa4093822299f31d0, 0x13198a2e03707344, 0x243f6a8885a308d3⟩

/-- `init1` of `HHState<TargetPortable>` (hh_portable.h). -/
def init1P : Lanes64 :=
  ⟨0x3bd39e10cb0ef593, 0xc0acf169b5f18a8c, 0xbe5466cf34e90c6c, 0x452821e638d01377⟩

/-- `Rotate64By32` (hh_portable.h): `(x >> 32) | (x << 32)` on `uint64_t`. -/
def rot64By32 (x : Nat) : Nat :=
  (x >>> 32) ||| ((x <<< 32) % M64)

/-- The portable constructor `HHState<TargetPortable>::HHState(keys)`. -/
def hhNewP (key : Lanes64) : HHSt :=
  { mul0 := init0P
    mul1 := init1P
    v0 := xorL init0P key
    v1 := xorL init1P (Lanes64.map rot64By32 key) }

/-- `MASK(v, bytes)` (hh_portable.h): clears all bits except the byte at the
given offset. -/
def maskP (v bytes : Nat) : Nat :=
  v &&& (0xFF <<< (bytes * 8))

/-- `ZipperMergeAndAdd` (hh_portable.h): the 16-byte permutation expressed as
masked shifts, added to `(add1, add0)`.  `v1` is the upper and `v0` the lower
64-bit lane of the 128-bit half being permuted.  Every C++ `+`, `<<` is
`uint64_t` arithmetic; a single outer `% M64` accounts for the reduction (the
individual terms are reduced where they can exceed 2^64). -/
def zipperMergeAndAdd (v1 v0 add1 add0 : Nat) : Nat × Nat :=
  let d0 := ((maskP v0 3 + maskP v1 4) >>> 24) +
      ((maskP v0 5 + maskP v1 6) >>> 16) + maskP v0 2 +
      ((maskP v0 1 <<< 32) % M64) + (maskP v1 7 >>> 8) + ((v0 <<< 56) % M64)
  let d1 := ((maskP v1 3 + maskP v0 4) >>> 24) + maskP v1 2 +
      (maskP v1 5 >>> 16) + ((maskP v1 1 <<< 24) % M64) + (maskP v0 6 >>> 8) +
      ((maskP v1 0 <<< 48) % M64) + maskP v0 7
  ((add1 + d1) % M64, (add0 + d0) % M64)

/-- One iteration of the lane loop inside `Update` (hh_portable.h): takes the
current `v1[lane]`, `v0[lane]`, `mul0[lane]`, `mul1[lane]` and returns the new
`(mul0[lane], v0[lane], mul1[lane])`. -/
def updateLaneP (v1l v0l m0 m1 : Nat) : Nat × Nat × Nat :=
  let v1_32 := v1l % M32
  let m0' := m0 ^^^ ((v1_32 * (v0l >>> 32)) % M64)
  let v0' := (v0l + m1) % M64
  let v0_32 := v0' % M32
  let m1' := m1 ^^^ ((v0_32 * (v1l >>> 32)) % M64)
  (m0', v0', m1')

/-- `HHState<TargetPortable>::Update` on a 32-byte packet. -/
def updateP (s : HHSt) (packet : Lanes64) : HHSt :=
  let v1a := addL s.v1 packet
  let v1b := addL v1a s.mul0
  let r0 := updateLaneP v1b.l0 s.v0.l0 s.mul0.l0 s.mul1.l0
  let r1 := updateLaneP v1b.l1 s.v0.l1 s.mul0.l1 s.mul1.l1
  let r2 := updateLaneP v1b.l2 s.v0.l2 s.mul0.l2 s.mul1.l2
  let r3 := updateLaneP v1b.l3 s.v0.l3 s.mul0.l3 s.mul1.l3
  let mul0' : Lanes64 := ⟨r0.1, r1.1, r2.1, r3.1⟩
  let v0m : Lanes64 := ⟨r0.2.1, r1.2.1, r2.2.1, r3.2.1⟩
  let mul1' : Lanes64 := ⟨r0.2.2, r1.2.2, r2.2.2, r3.2.2⟩
  let z01 := zipperMergeAndAdd v1b.l1 v1b.l0 v0m.l1 v0m.l0
  let z23 := zipperMergeAndAdd v1b.l3 v1b.l2 v0m.l3 v0m.l2
  let v0' : Lanes64 := ⟨z01.2, z01.1, z23.2, z23.1⟩
  let w01 := zipperMergeAndAdd v0'.l1 v0'.l0 v1b.l1 v1b.l0
  let w23 := zipperMergeAndAdd v0'.l3 v0'.l2 v1b.l3 v1b.l2
  let v1' : Lanes64 := ⟨w01.2, w01.1, w23.2, w23.1⟩
  { v0 := v0', v1 := v1', mul0 := mul0', mul1 := mul1' }

/-- `Rotate32By` on one 32-bit half (hh_portable.h):
`(x << count) | (x >> (32 - count))` on `uint32_t` (callers pass
`count ∈ [1, 31]`). -/
def rot32 (x c : Nat) : Nat :=
  ((x <<< c) % M32) ||| (x >>> (32 - c))

/-- `Rotate32By` applied to a 64-bit lane viewed as two `uint32_t` halves. -/
def rot32Lane (x c : Nat) : Nat :=
  rot32 (x % M32) c + rot32 (x >>> 32) c * 2 ^ 32

/-- The zero-padded tail buffer: `char packet[32] = {0}` after
`memcpy(packet, bytes, copied)`. -/
def bufP (m : Nat → Nat) (copied : Nat) : Nat → Nat :=
  fun i => if i < copied then m i % 256 else 0

/-- The 32-byte packet assembled by `UpdateRemainder` (hh_portable.h).
`size_mod32 & ~3` is written `size_mod32 - size_mod32 % 4`. -/
def tailPacketP (m : Nat → Nat) (size_mod32 : Nat) : Lanes64 :=
  let size_mod4 := size_mod32 % 4
  let copied := size_mod32 - size_mod4
  let buf := bufP m copied
  if size_mod32 &&& 16 ≠ 0 then
    -- 16..31 bytes: the last 4 bytes land in packet[28..32)
    let last4 := r32 m (size_mod32 - 4)
    ⟨r64 buf 0, r64 buf 8, r64 buf 16, r32 buf 24 + last4 * 2 ^ 32⟩
  else
    -- < 16 bytes: up to 3 trailing bytes assembled into last4, stored at
    -- packet[16..24)
    let last4 :=
      if size_mod4 ≠ 0 then
        let fb := fun j => m (copied + j) % 256
        fb 0 + fb (size_mod4 >>> 1) * 2 ^ 8 + fb (size_mod4 - 1) * 2 ^ 16
      else 0
    ⟨r64 buf 0, r64 buf 8, last4, 0⟩

/-- `HHState<TargetPortable>::UpdateRemainder`.  `m` is the memory at
`bytes` (the tail pointer), holding `size_mod32` valid bytes. -/
def updateRemainderP (m : Nat → Nat) (size_mod32 : Nat) (s : HHSt) : HHSt :=
  let mod32_pair := (size_mod32 <<< 32) + size_mod32
  let v0' := Lanes64.map (fun x => (x + mod32_pair) % M64) s.v0
  let v1' := Lanes64.map (fun x => rot32Lane x size_mod32) s.v1
  updateP { s with v0 := v0', v1 := v1' } (tailPacketP m size_mod32)

/-- `Permute` (hh_portable.h). -/
def permuteP (v : Lanes64) : Lanes64 :=
  ⟨rot64By32 v.l2, rot64By32 v.l3, rot64By32 v.l0, rot64By32 v.l1⟩

/-- `PermuteAndUpdate` (hh_portable.h). -/
def permuteAndUpdateP (s : HHSt) : HHSt :=
  updateP s (permuteP s.v0)

/-- The four `PermuteAndUpdate` rounds shared by all `Finalize` variants. -/
def final4P (s : HHSt) : HHSt :=
  permuteAndUpdateP (permuteAndUpdateP (permuteAndUpdateP (permuteAndUpdateP s)))

/-- `Finalize(HHResult64*)` (hh_portable.h). -/
def finalize64P (s : HHSt) : Nat :=
  let f := final4P s
  (f.v0.l0 + f.v1.l0 + f.mul0.l0 + f.mul1.l0) % M64

/-- `Finalize(HHResult128*)` (hh_portable.h). -/
def finalize128P (s : HHSt) : Nat × Nat :=
  let f := final4P s
  ((f.v0.l0 + f.mul0.l0 + f.v1.l2 + f.mul1.l2) % M64,
   (f.v0.l1 + f.mul0.l1 + f.v1.l3 + f.mul1.l3) % M64)

/-- `Shift128Left<kBits>` (hh_portable.h): shifts the 128-bit value
`(a1, a0)` left, returning the new `(a1, a0)`. -/
def shift128Left (kBits a1 a0 : Nat) : Nat × Nat :=
  let shifted1 := (a1 <<< kBits) % M64
  let top_bits := a0 >>> (64 - kBits)
  ((shifted1 ||| top_bits), (a0 <<< kBits) % M64)

/-- `ModularReduction` (hh_portable.h): reduction of the 256-bit `a3210`
modulo `x^128 + x^2 + x`, returning `(m1, m0)`. -/
def modularReductionP (a3_unmasked a2 a1 a0 : Nat) : Nat × Nat :=
  let a3 := a3_unmasked &&& 0x3FFFFFFFFFFFFFFF
  let s1 := shift128Left 1 a3 a2
  let s2 := shift128Left 2 a3 a2
  (a1 ^^^ s1.1 ^^^ s2.1, a0 ^^^ s1.2 ^^^ s2.2)

/-- `Finalize(HHResult256*)` (hh_portable.h): result lanes `(r0, r1, r2, r3)`. -/
def finalize256P (s : HHSt) : Lanes64 :=
  let f := final4P s
  let lo := modularReductionP ((f.v1.l1 + f.mul1.l1) % M64) ((f.v1.l0 + f.mul1.l0) % M64)
      ((f.v0.l1 + f.mul0.l1) % M64) ((f.v0.l0 + f.mul0.l0) % M64)
  let hi := modularReductionP ((f.v1.l3 + f.mul1.l3) % M64) ((f.v1.l2 + f.mul1.l2) % M64)
      ((f.v0.l3 + f.mul0.l3) % M64) ((f.v0.l2 + f.mul0.l2) % M64)
  ⟨lo.2, lo.1, hi.2, hi.1⟩

end Portable

namespace AVX2

/-- Modelled from the spec: vector256.h (the V4x64U wrapper used by
hh_avx2.h) is not under src/.  Its constructor takes lanes high-to-low
(`_mm256_set_epi64x`), so `V4x64U(a3, a2, a1, a0)` has lane 0 = `a0`; its
operators are lanewise 64-bit arithmetic.  Byte `i` of a 64-bit lane. -/
def byteN (v i : Nat) : Nat :=
  (v >>> (8 * i)) % 256

/-- Byte `j ∈ [0, 16)` of the 128-bit half `(lo, hi)`. -/
def halfByte (lo hi j : Nat) : Nat :=
  if j < 8 then byteN lo j else byteN hi (j - 8)

/-- Modelled from the spec: `_mm256_shuffle_epi8` restricted to one output
lane.  `ctl` is the 64-bit control word for this lane (all its control bytes
are < 0x80 here); output byte `i` is half byte `ctl`'s byte `i`. -/
def pshufbLane (ctl lo hi : Nat) : Nat :=
  halfByte lo hi (byteN ctl 0) + halfByte lo hi (byteN ctl 1) * 2 ^ 8 +
  halfByte lo hi (byteN ctl 2) * 2 ^ 16 + halfByte lo hi (byteN ctl 3) * 2 ^ 24 +
  halfByte lo hi (byteN ctl 4) * 2 ^ 32 + halfByte lo hi (byteN ctl 5) * 2 ^ 40 +
  halfByte lo hi (byteN ctl 6) * 2 ^ 48 + halfByte lo hi (byteN ctl 7) * 2 ^ 56

/-- 32-bit element `j ∈ [0, 8)` of a 256-bit register. -/
def dwordv (v : Lanes64) (j : Nat) : Nat :=
  if j % 2 = 0 then (match j / 2 with
    | 0 => v.l0
    | 1 => v.l1
    | 2 => v.l2
    | _ => v.l3) % M32
  else (match j / 2 with
    | 0 => v.l0
    | 1 => v.l1
    | 2 => v.l2
    | _ => v.l3) >>> 32

/-- `init0` of `HHState<TargetAVX2>` (hh_avx2.h), in lane order
(lane 0 = the last constructor argument). -/
def init0A : Lanes64 :=
  ⟨0xdbe6d5d5fe4cce2f, 0xa4093822299f31d0, 0x13198a2e03707344, 0x243f6a8885a308d3⟩

/-- `init1` of `HHState<TargetAVX2>` (hh_avx2.h). -/
def init1A : Lanes64 :=
  ⟨0x3bd39e10cb0ef593, 0xc0acf169b5f18a8c, 0xbe5466cf34e90c6c, 0x452821e638d01377⟩

/-- `Rotate64By32` (hh_avx2.h): `_mm256_shuffle_epi32(v, _MM_SHUFFLE(2,3,0,1))`
swaps the two 32-bit halves inside each 64-bit lane. -/
def rot64By32A (x : Nat) : Nat :=
  ((x % M32) <<< 32) ||| (x >>> 32)

/-- The AVX2 constructor `HHState<TargetAVX2>::HHState(key_lanes)`. -/
def hhNewA (key : Lanes64) : HHSt :=
  { v0 := xorL key init0A
    v1 := xorL (Lanes64.map rot64By32A key) init1A
    mul0 := init0A
    mul1 := init1A }

/-- `MulLow32` (hh_avx2.h): `_mm256_mul_epu32`, the unsigned 32x32→64 product
of the low 32 bits of each pair of 64-bit lanes. -/
def mulLow32A (a b : Lanes64) : Lanes64 :=
  Lanes64.map2 (fun x y => ((x % M32) * (y % M32)) % M64) a b

/-- Lanewise logical shift right by 32 (`v >> 32` on V4x64U). -/
def shr32L (v : Lanes64) : Lanes64 :=
  Lanes64.map (fun x => x >>> 32) v

/-- `ZipperMerge` (hh_avx2.h): `_mm256_shuffle_epi8` with per-half control
`(hi, lo) = (0x070806090D0A040B, 0x000F010E05020C03)`. -/
def zipperMergeA (v : Lanes64) : Lanes64 :=
  ⟨pshufbLane 0x000F010E05020C03 v.l0 v.l1, pshufbLane 0x070806090D0A040B v.l0 v.l1,
   pshufbLane 0x000F010E05020C03 v.l2 v.l3, pshufbLane 0x070806090D0A040B v.l2 v.l3⟩

/-- `HHState<TargetAVX2>::Update(packet)`. -/
def updateA (s : HHSt) (packet : Lanes64) : HHSt :=
  let v1a := addL s.v1 packet
  let v1b := addL v1a s.mul0
  let mul0' := xorL s.mul0 (mulLow32A v1b (shr32L s.v0))
  let v0' := addL s.v0 s.mul1
  let mul1' := xorL s.mul1 (mulLow32A v0' (shr32L v1b))
  let v0'' := addL v0' (zipperMergeA v1b)
  let v1' := addL v1b (zipperMergeA v0'')
  { v0 := v0'', v1 := v1', mul0 := mul0', mul1 := mul1' }

/-- `Rotate32By` (hh_avx2.h) on one 32-bit element: `_mm256_sllv_epi32` /
`_mm256_srlv_epi32` combined with `|`.  A variable shift by a count ≥ 32
yields 0 (matches `x >>> (32 - c)` on `Nat` for `x < 2^32` and `c = 0`). -/
def rot32A (x c : Nat) : Nat :=
  ((x <<< c) % M32) ||| (x >>> (32 - c))

/-- `Rotate32By` applied to a 64-bit lane (two 32-bit elements). -/
def rot32LaneA (x c : Nat) : Nat :=
  rot32A (x % M32) c + rot32A (x >>> 32) c * 2 ^ 32

/-- The 32-byte packet assembled by the AVX2 `UpdateRemainder`.  The masked
loads read 32-bit words only where `_mm_cmpgt_epi32(size_mod32, min_minus_one)`
is true; the final 0..3 bytes are read via a 4-byte load at
`bytes + size_mod32 - 4` (branch `size_mod32 & 16`) or assembled from offsets
`{0, size_mod4 >> 1, size_mod4 - 1}` (branch `size_mod32 < 16`). -/
def tailPacketA (m : Nat → Nat) (size_mod32 : Nat) : Lanes64 :=
  let size_mod4 := size_mod32 % 4
  if size_mod32 &&& 16 ≠ 0 then
    -- packetL = unaligned 16-byte load; packetH = masked load + insert
    let e4 := if 19 < size_mod32 then r32 m 16 else 0
    let e5 := if 23 < size_mod32 then r32 m 20 else 0
    let e6 := if 27 < size_mod32 then r32 m 24 else 0
    let last4 := r32 m (size_mod32 - 4)
    ⟨r64 m 0, r64 m 8, e4 + e5 * 2 ^ 32, e6 + last4 * 2 ^ 32⟩
  else
    let e0 := if 3 < size_mod32 then r32 m 0 else 0
    let e1 := if 7 < size_mod32 then r32 m 4 else 0
    let e2 := if 11 < size_mod32 then r32 m 8 else 0
    let e3 := if 15 < size_mod32 then r32 m 12 else 0
    let last4 :=
      if size_mod4 ≠ 0 then
        let fb := fun j => m (size_mod32 - size_mod4 + j) % 256
        fb 0 + fb (size_mod4 >>> 1) * 2 ^ 8 + fb (size_mod4 - 1) * 2 ^ 16
      else 0
    ⟨e0 + e1 * 2 ^ 32, e2 + e3 * 2 ^ 32, last4 % M64, last4 >>> 64⟩

/-- `HHState<TargetAVX2>::UpdateRemainder`. -/
def updateRemainderA (m : Nat → Nat) (size_mod32 : Nat) (s : HHSt) : HHSt :=
  let mod32_pair := (size_mod32 % M32) + (size_mod32 % M32) * 2 ^ 32
  let v0' := Lanes64.map (fun x => (x + mod32_pair) % M64) s.v0
  let v1' := Lanes64.map (fun x => rot32LaneA x size_mod32) s.v1
  updateA { s with v0 := v0', v1 := v1' } (tailPacketA m size_mod32)

/-- `Permute` (hh_avx2.h): `_mm256_permutevar8x32_epi32` with 32-bit indices
`(2,3,0,1,6,7,4,5)` high-to-low, i.e. output element `j` is input element
`(5,4,7,6,1,0,3,2)[j]` counting from element 0. -/
def permuteA (v : Lanes64) : Lanes64 :=
  ⟨dwordv v 5 ||| dwordv v 4 <<< 32, dwordv v 7 ||| dwordv v 6 <<< 32,
   dwordv v 1 ||| dwordv v 0 <<< 32, dwordv v 3 ||| dwordv v 2 <<< 32⟩

/-- The four `Update(Permute(v0))` rounds shared by all AVX2 `Finalize`
variants. -/
def final4A (s : HHSt) : HHSt :=
  let s1 := updateA s (permuteA s.v0)
  let s2 := updateA s1 (permuteA s1.v0)
  let s3 := updateA s2 (permuteA s2.v0)
  updateA s3 (permuteA s3.v0)

/-- AVX2 `Finalize(HHResult64*)`: lane 0 of `(v0 + mul0) + (v1 + mul1)`. -/
def finalize64A (s : HHSt) : Nat :=
  let f := final4A s
  let sum0 := addL f.v0 f.mul0
  let sum1 := addL f.v1 f.mul1
  (addL sum0 sum1).l0

/-- AVX2 `Finalize(HHResult128*)`: low 128 bits of `v0 + mul0` plus high
128 bits of `v1 + mul1`. -/
def finalize128A (s : HHSt) : Nat × Nat :=
  let f := final4A s
  let sum0 := addL f.v0 f.mul0
  let sum1 := addL f.v1 f.mul1
  ((sum0.l0 + sum1.l2) % M64, (sum0.l1 + sum1.l3) % M64)

/-- Modelled from the spec: `AndNot(x, y)` = `y & ~x` with 64-bit two's
complement NOT. -/
def andnot64 (x y : Nat) : Nat :=
  y &&& ((M64 - 1) ^^^ x)

/-- `XorByShift128Left12` (hh_avx2.h), line by line.  `ba` is the upper
128-bit halves (two independent 128-bit lanes); the function XORs
`(a << 1) ^ (a << 2)` (with the top two bits of `a` cleared) into `out`. -/
def xorByShift128Left12A (ba out : Lanes64) : Lanes64 :=
  let zero : Lanes64 := xorL ba ba
  let top_bits2 := Lanes64.map (fun x => x >>> (64 - 2)) ba
  let shifted1_unmasked := addL ba ba
  let top_bits1 := Lanes64.map (fun x => x >>> (64 - 1)) ba
  -- ones = (ba == ba) = all-1s; upper_8bytes = _mm256_slli_si256(ones, 8)
  let upper_8bytes : Lanes64 := ⟨0, M64 - 1, 0, M64 - 1⟩
  let shifted2 := addL shifted1_unmasked shifted1_unmasked
  let upper_bit_of_128 := Lanes64.map (fun x => (x <<< 63) % M64) upper_8bytes
  -- _mm256_unpacklo_epi64(zero, top_bits2)
  let new_low_bits2 : Lanes64 := ⟨zero.l0, top_bits2.l0, zero.l2, top_bits2.l2⟩
  let out1 := xorL out shifted2
  let shifted1 := Lanes64.map2 andnot64 upper_bit_of_128 shifted1_unmasked
  let out2 := xorL out1 new_low_bits2
  let new_low_bits1 : Lanes64 := ⟨zero.l0, top_bits1.l0, zero.l2, top_bits1.l2⟩
  let out3 := xorL out2 shifted1
  xorL out3 new_low_bits1

/-- AVX2 `ModularReduction`. -/
def modularReductionA (b32a32 b10a10 : Lanes64) : Lanes64 :=
  xorByShift128Left12A b32a32 b10a10

/-- AVX2 `Finalize(HHResult256*)`. -/
def finalize256A (s : HHSt) : Lanes64 :=
  let f := final4A s
  let sum0 := addL f.v0 f.mul0
  let sum1 := addL f.v1 f.mul1
  modularReductionA sum1 sum0

end AVX2

section Driver

variable {St R : Type}

/-- The whole-packet loop of `HighwayHashT` (highwayhash.h):
`for (offset = 0; offset < truncated; offset += 32) state->Update(packet)`,
expressed by the number `count = truncated / 32` of iterations left. -/
def updLoop (upd : St → Lanes64 → St) (m : Nat → Nat) : Nat → Nat → St → St
  | _, 0, s => s
  | off, count + 1, s => updLoop upd m (off + 32) count (upd s (packetAt m off))

/-- `HighwayHashT` (highwayhash.h), generic over the target state exactly as
the C++ function template is: whole packets, then `UpdateRemainder` iff
`size % 32 ≠ 0`, then `Finalize`.  `truncated = size & ~31` is written
`size - size % 32`. -/
def highwayHashT (upd : St → Lanes64 → St) (updRem : (Nat → Nat) → Nat → St → St)
    (fin : St → R) (state : St) (m : Nat → Nat) (size : Nat) : R :=
  let remainder := size % 32
  let truncated := size - remainder
  let s := updLoop upd m 0 (truncated / 32) state
  let s := if remainder ≠ 0 then updRem (fun i => m (truncated + i)) remainder s else s
  fin s

/-- 64-bit one-shot hash, portable target. -/
def hash64P (key : Lanes64) (m : Nat → Nat) (size : Nat) : Nat :=
  highwayHashT Portable.updateP Portable.updateRemainderP Portable.finalize64P
    (Portable.hhNewP key) m size

/-- 128-bit one-shot hash, portable target. -/
def hash128P (key : Lanes64) (m : Nat → Nat) (size : Nat) : Nat × Nat :=
  highwayHashT Portable.updateP Portable.updateRemainderP Portable.finalize128P
    (Portable.hhNewP key) m size

/-- 256-bit one-shot hash, portable target. -/
def hash256P (key : Lanes64) (m : Nat → Nat) (size : Nat) : Lanes64 :=
  highwayHashT Portable.updateP Portable.updateRemainderP Portable.finalize256P
    (Portable.hhNewP key) m size

/-- 64-bit one-shot hash, AVX2 target. -/
def hash64A (key : Lanes64) (m : Nat → Nat) (size : Nat) : Nat :=
  highwayHashT AVX2.updateA AVX2.updateRemainderA AVX2.finalize64A
    (AVX2.hhNewA key) m size

/-- 128-bit one-shot hash, AVX2 target. -/
def hash128A (key : Lanes64) (m : Nat → Nat) (size : Nat) : Nat × Nat :=
  highwayHashT AVX2.updateA AVX2.updateRemainderA AVX2.finalize128A
    (AVX2.hhNewA key) m size

/-- 256-bit one-shot hash, AVX2 target. -/
def hash256A (key : Lanes64) (m : Nat → Nat) (size : Nat) : Lanes64 :=
  highwayHashT AVX2.updateA AVX2.updateRemainderA AVX2.finalize256A
    (AVX2.hhNewA key) m size

end Driver

/-- One observable call made by the `HighwayHashT` driver. -/
inductive HHEvent where
  /-- `state->Update` on the 32-byte packet at this byte offset. -/
  | upd (off : Nat)
  /-- `state->UpdateRemainder(bytes + truncated, remainder)`. -/
  | rem (truncated remainder : Nat)
  /-- `state->Finalize`. -/
  | fin
deriving DecidableEq

/-- The offsets visited by the packet loop of `HighwayHashT`, in program
order (mirrors the `for` loop, counting down the remaining iterations). -/
def updLoopTrace : Nat → Nat → List HHEvent
  | _, 0 => []
  | off, count + 1 => HHEvent.upd off :: updLoopTrace (off + 32) count

/-- The calls issued by `HighwayHashT` for an input of `size` bytes, in
program order. -/
def driverTrace (size : Nat) : List HHEvent :=
  let remainder := size % 32
  let truncated := size - remainder
  updLoopTrace 0 (truncated / 32) ++
    (if remainder ≠ 0 then [HHEvent.rem truncated remainder] else []) ++ [HHEvent.fin]

section Cat

variable {St : Type}

/-- The state of `HighwayHashCatT` (highwayhash.h): the packet buffer
(`buffer_`, kept as the list of its `buffer_usage_` valid bytes) and the
wrapped hash state. -/
structure CatSt (St : Type) where
  buffer : List Nat
  state : St

/-- The `while (num_bytes >= 32)` loop of `Append`: updates directly from the
source, returning the final state and the < 32 leftover bytes. -/
def catLoop (upd : St → Lanes64 → St) (s : St) (l : List Nat) : St × List Nat :=
  if _h : 32 ≤ l.length then
    catLoop upd (upd s (packetAt (byteOf l) 0)) (l.drop 32)
  else (s, l)
termination_by l.length
decreasing_by simp_all; omega

/-- `HighwayHashCatT::Append(bytes, num_bytes)`.  The fragment is passed as
the list of its bytes. -/
def catAppend (upd : St → Lanes64 → St) (c : CatSt St) (frag : List Nat) : CatSt St :=
  if c.buffer.length ≠ 0 then
    let capacity := 32 - c.buffer.length
    if frag.length < capacity then
      { c with buffer := c.buffer ++ frag }
    else
      let filled := c.buffer ++ frag.take capacity
      let s1 := upd c.state (packetAt (byteOf filled) 0)
      let r := catLoop upd s1 (frag.drop capacity)
      { buffer := r.2, state := r.1 }
  else
    let r := catLoop upd c.state frag
    { buffer := r.2, state := r.1 }

/-- `HighwayHashCatT::Finalize`: drain the buffer through `UpdateRemainder`
iff it is non-empty, then `Finalize`. -/
def catFinalize {R : Type} (updRem : (Nat → Nat) → Nat → St → St) (fin : St → R)
    (c : CatSt St) : R :=
  let s := if c.buffer.length ≠ 0 then
    updRem (byteOf c.buffer) c.buffer.length c.state else c.state
  fin s

/-- A fresh portable-target Cat state (`HighwayHashCatT`'s constructor). -/
def catNewP (key : Lanes64) : CatSt HHSt :=
  { buffer := [], state := Portable.hhNewP key }

end Cat

/-- SipHash state (sip_hash.h): four 64-bit words. -/
structure SipSt where
  v0 : Nat
  v1 : Nat
  v2 : Nat
  v3 : Nat
deriving DecidableEq

/-- `RotateLeft<bits>` (sip_hash.h): 64-bit rotate left. -/
def rotl64 (x b : Nat) : Nat :=
  ((x <<< b) % M64) ||| (x >>> (64 - b))

/-- One iteration of `Compress` (sip_hash.h): the SipRound ARX network. -/
def sipRound (s : SipSt) : SipSt :=
  let v0 := (s.v0 + s.v1) % M64
  let v2 := (s.v2 + s.v3) % M64
  let v1 := rotl64 s.v1 13
  let v3 := rotl64 s.v3 16
  let v1 := v1 ^^^ v0
  let v3 := v3 ^^^ v2
  let v0 := rotl64 v0 32
  let v2 := (v2 + v1) % M64
  let v0 := (v0 + v3) % M64
  let v1 := rotl64 v1 17
  let v3 := rotl64 v3 21
  let v1 := v1 ^^^ v2
  let v3 := v3 ^^^ v0
  let v2 := rotl64 v2 32
  ⟨v0, v1, v2, v3⟩

/-- `Compress<rounds>` (sip_hash.h). -/
def sipCompress (rounds : Nat) (s : SipSt) : SipSt :=
  sipRound^[rounds] s

/-- `SipHashState::SipHashState(key)` (sip_hash.h). -/
def sipNew (k0 k1 : Nat) : SipSt :=
  ⟨0x736f6d6570736575 ^^^ k0, 0x646f72616e646f6d ^^^ k1,
   0x6c7967656e657261 ^^^ k0, 0x7465646279746573 ^^^ k1⟩

/-- `SipHashState::Update(bytes)` on the 8-byte little-endian packet value. -/
def sipUpdate (s : SipSt) (packet : Nat) : SipSt :=
  let s1 : SipSt := { s with v3 := s.v3 ^^^ packet }
  let s2 := sipCompress 2 s1
  { s2 with v0 := s2.v0 ^^^ packet }

/-- `SipHashState::Finalize` (sip_hash.h). -/
def sipFinalize (s : SipSt) : Nat :=
  let s1 : SipSt := { s with v2 := s.v2 ^^^ 0xFF }
  let s2 := sipCompress 4 s1
  (s2.v0 ^^^ s2.v1) ^^^ (s2.v2 ^^^ s2.v3)

/-- The padded packet of `PaddedUpdate<SipHashState>` (sip_hash.h): residue
copied into a zeroed 8-byte buffer whose byte 7 is then set to
`size & 0xFF`, read back as one little-endian `uint64_t`. -/
def sipPadWord (size : Nat) (m : Nat → Nat) (remaining_size : Nat) : Nat :=
  let buf := fun j => if j < remaining_size then m j % 256 else 0
  let withLen := fun j => if j = 7 then size % 256 else buf j
  r64 withLen 0

/-- `PaddedUpdate<SipHashState>` (sip_hash.h). -/
def sipPaddedUpdate (size : Nat) (m : Nat → Nat) (remaining_size : Nat) (s : SipSt) : SipSt :=
  sipUpdate s (sipPadWord size m remaining_size)

/-- The whole-packet loop of `UpdateState` (state_helpers.h) for the 8-byte
packets of SipHash, counting the remaining iterations. -/
def sipLoop (m : Nat → Nat) : Nat → Nat → SipSt → SipSt
  | _, 0, s => s
  | off, count + 1, s => sipLoop m (off + 8) count (sipUpdate s (r64 m off))

/-- `UpdateState` (state_helpers.h): feed every whole packet, then always one
more padded packet. -/
def updateStateSip (m : Nat → Nat) (size : Nat) (s : SipSt) : SipSt :=
  let remainder := size % 8
  let truncated := size - remainder
  sipPaddedUpdate size (fun i => m (truncated + i)) remainder
    (sipLoop m 0 (truncated / 8) s)

/-- `SipHash` = `ComputeHash<SipHashState>` (sip_hash.h, state_helpers.h). -/
def sipHash (k0 k1 : Nat) (m : Nat → Nat) (size : Nat) : Nat :=
  sipFinalize (updateStateSip m size (sipNew k0 k1))

/-- The sequence of 8-byte packet values fed to the SipHash state by
`UpdateState`, in order (whole packets, then the unconditional padded
packet). -/
def sipLoopPackets (m : Nat → Nat) : Nat → Nat → List Nat
  | _, 0 => []
  | off, count + 1 => r64 m off :: sipLoopPackets m (off + 8) count

/-- All packets `UpdateState` feeds for an input of `size` bytes. -/
def sipPackets (m : Nat → Nat) (size : Nat) : List Nat :=
  let remainder := size % 8
  let truncated := size - remainder
  sipLoopPackets m 0 (truncated / 8) ++
    [sipPadWord size (fun i => m (truncated + i)) remainder]

/-- `ReduceSipTreeHash` (sip_hash.h): hash the four lane hashes with one
single-lane SipHash. -/
def reduceSipTreeHash (k0 k1 : Nat) (hashes : Lanes64) : Nat :=
  sipFinalize (sipUpdate (sipUpdate (sipUpdate (sipUpdate (sipNew k0 k1)
    hashes.l0) hashes.l1) hashes.l2) hashes.l3)

namespace TreeScalar

/-- Four independent SipHash lane states (scalar_sip_tree_hash.cc). -/
structure TreeSts where
  s0 : SipSt
  s1 : SipSt
  s2 : SipSt
  s3 : SipSt
deriving DecidableEq

/-- `ScalarSipTreeHashState::ScalarSipTreeHashState(keys, lane)`: the lane key
is `keys[lane] ^ (kNumLanes | lane)` and is XORed into all four constants. -/
def treeNewS (key : Lanes64) (lane : Nat) : SipSt :=
  let k := (match lane with
    | 0 => key.l0
    | 1 => key.l1
    | 2 => key.l2
    | _ => key.l3) ^^^ (4 ||| lane)
  ⟨0x736f6d6570736575 ^^^ k, 0x646f72616e646f6d ^^^ k,
   0x6c7967656e657261 ^^^ k, 0x7465646279746573 ^^^ k⟩

/-- The whole-packet loop of `ScalarSipTreeHash`: the four 8-byte words of
each 32-byte packet go round-robin to lanes 0..3 (the update code of
`ScalarSipTreeHashState` is textually that of `SipHashState`). -/
def treeLoopS (m : Nat → Nat) : Nat → Nat → TreeSts → TreeSts
  | _, 0, st => st
  | off, count + 1, st =>
    treeLoopS m (off + 32) count
      ⟨sipUpdate st.s0 (r64 m off), sipUpdate st.s1 (r64 m (off + 8)),
       sipUpdate st.s2 (r64 m (off + 16)), sipUpdate st.s3 (r64 m (off + 24))⟩

/-- `packet4` of the tree-hash tail: `remainder << 24` plus the last
`remainder_mod4` bytes (uint32 arithmetic), with `finalOff` the offset of
`final_bytes`. -/
def packet4Of (m : Nat → Nat) (finalOff remainder remainder_mod4 : Nat) : Nat :=
  (((remainder <<< 24) % M32) +
    (if 1 ≤ remainder_mod4 then m finalOff % 256 else 0) +
    (if 2 ≤ remainder_mod4 then m (finalOff + 1) % 256 * 2 ^ 8 else 0) +
    (if 3 ≤ remainder_mod4 then m (finalOff + 2) % 256 * 2 ^ 16 else 0)) % M32

/-- The final 32-byte packet of `ScalarSipTreeHash`: zero-filled buffer,
`memcpy` of the whole remaining words, `packet4` at bytes 28..31. -/
def treeFinalPacketS (m : Nat → Nat) (size : Nat) : Lanes64 :=
  let remainder := size % 32
  let truncated := size - remainder
  let remainder_mod4 := remainder % 4
  let p4 := packet4Of m (size - remainder_mod4) remainder remainder_mod4
  let buf := Portable.bufP (fun i => m (truncated + i)) (remainder - remainder_mod4)
  ⟨r64 buf 0, r64 buf 8, r64 buf 16, r32 buf 24 + p4 * 2 ^ 32⟩

/-- `ScalarSipTreeHash` (scalar_sip_tree_hash.cc). -/
def scalarSipTreeHash (key : Lanes64) (m : Nat → Nat) (size : Nat) : Nat :=
  let st0 : TreeSts := ⟨treeNewS key 0, treeNewS key 1, treeNewS key 2, treeNewS key 3⟩
  let remainder := size % 32
  let truncated := size - remainder
  let st1 := treeLoopS m 0 (truncated / 32) st0
  let fp := treeFinalPacketS m size
  let st2 : TreeSts := ⟨sipUpdate st1.s0 fp.l0, sipUpdate st1.s1 fp.l1,
    sipUpdate st1.s2 fp.l2, sipUpdate st1.s3 fp.l3⟩
  let hashes : Lanes64 := ⟨sipFinalize st2.s0, sipFinalize st2.s1,
    sipFinalize st2.s2, sipFinalize st2.s3⟩
  reduceSipTreeHash key.l0 key.l1 hashes

end TreeScalar

namespace TreeSIMD

/-- The AVX2 `SipTreeHashState` (sip_tree_hash.cc): four 64-bit words per
lane, four lanes in parallel. -/
structure SipV4 where
  v0 : Lanes64
  v1 : Lanes64
  v2 : Lanes64
  v3 : Lanes64
deriving DecidableEq

/-- Lanewise `RotateLeft<bits>` (sip_tree_hash.cc). -/
def rotl64V (v : Lanes64) (b : Nat) : Lanes64 :=
  Lanes64.map (fun x => rotl64 x b) v

/-- `RotateLeft16` (sip_tree_hash.cc): `_mm256_shuffle_epi8` with per-half
control `(0x0D0C0B0A09080F0E, 0x0504030201000706)`. -/
def rotl16V (v : Lanes64) : Lanes64 :=
  ⟨AVX2.pshufbLane 0x0504030201000706 v.l0 v.l1,
   AVX2.pshufbLane 0x0D0C0B0A09080F0E v.l0 v.l1,
   AVX2.pshufbLane 0x0504030201000706 v.l2 v.l3,
   AVX2.pshufbLane 0x0D0C0B0A09080F0E v.l2 v.l3⟩

/-- `Rotate32` (sip_tree_hash.cc): `_mm256_shuffle_epi32(v, (2,3,0,1))`,
swapping the 32-bit halves of each 64-bit lane. -/
def rot32V (v : Lanes64) : Lanes64 :=
  Lanes64.map AVX2.rot64By32A v

/-- One iteration of the vector `Compress` (sip_tree_hash.cc). -/
def sipRoundV (s : SipV4) : SipV4 :=
  let v0 := addL s.v0 s.v1
  let v2 := addL s.v2 s.v3
  let v1 := rotl64V s.v1 13
  let v3 := rotl16V s.v3
  let v1 := xorL v1 v0
  let v3 := xorL v3 v2
  let v0 := rot32V v0
  let v2 := addL v2 v1
  let v0 := addL v0 v3
  let v1 := rotl64V v1 17
  let v3 := rotl64V v3 21
  let v1 := xorL v1 v2
  let v3 := xorL v3 v0
  let v2 := rot32V v2
  ⟨v0, v1, v2, v3⟩

/-- `SipTreeHashState::SipTreeHashState(keys)` (sip_tree_hash.cc):
`init` lanes broadcast by `_mm256_permute4x64_epi64`, XORed with
`key ^ (kNumLanes | lane)`. -/
def treeNewV (key : Lanes64) : SipV4 :=
  let lanes : Lanes64 := ⟨4 ||| 0, 4 ||| 1, 4 ||| 2, 4 ||| 3⟩
  let k := xorL key lanes
  { v0 := xorL (Lanes64.map (fun _ => 0x736f6d6570736575) k) k
    v1 := xorL (Lanes64.map (fun _ => 0x646f72616e646f6d) k) k
    v2 := xorL (Lanes64.map (fun _ => 0x6c7967656e657261) k) k
    v3 := xorL (Lanes64.map (fun _ => 0x7465646279746573) k) k }

/-- `SipTreeHashState::Update(packet)` (sip_tree_hash.cc). -/
def treeUpdateV (s : SipV4) (packet : Lanes64) : SipV4 :=
  let s1 : SipV4 := { s with v3 := xorL s.v3 packet }
  let s2 := sipRoundV (sipRoundV s1)
  { s2 with v0 := xorL s2.v0 packet }

/-- `SipTreeHashState::Finalize` (sip_tree_hash.cc). -/
def treeFinalizeV (s : SipV4) : Lanes64 :=
  let s1 : SipV4 := { s with v2 := xorL s.v2 (Lanes64.map (fun _ => 0xFF) s.v2) }
  let s2 := sipRoundV (sipRoundV (sipRoundV (sipRoundV s1)))
  xorL (xorL s2.v0 s2.v1) (xorL s2.v2 s2.v3)

/-- The main loop of `SipTreeHash`: one 32-byte vector packet per iteration. -/
def treeLoopV (m : Nat → Nat) : Nat → Nat → SipV4 → SipV4
  | _, 0, st => st
  | off, count + 1, st => treeLoopV m (off + 32) count (treeUpdateV st (packetAt m off))

/-- `LoadFinalPacket32` (sip_tree_hash.cc): masked load of the
`remainder >> 2` whole 32-bit words, `packet4` blended into word 7.  `m` is
the memory at `bytes + truncated_size`. -/
def loadFinalPacket32V (m : Nat → Nat) (_size remainder : Nat) : Lanes64 :=
  let remaining_32 := remainder >>> 2
  let dw := fun j => if j < remaining_32 then r32 m (4 * j) else 0
  let p4 := TreeScalar.packet4Of m (remaining_32 * 4) remainder (remainder % 4)
  ⟨dw 0 + dw 1 * 2 ^ 32, dw 2 + dw 3 * 2 ^ 32, dw 4 + dw 5 * 2 ^ 32, dw 6 + p4 * 2 ^ 32⟩

/-- `SipTreeHash` (sip_tree_hash.cc). -/
def sipTreeHash (key : Lanes64) (m : Nat → Nat) (size : Nat) : Nat :=
  let st0 := treeNewV key
  let remainder := size % 32
  let truncated := size - remainder
  let st1 := treeLoopV m 0 (truncated / 32) st0
  let fp := loadFinalPacket32V (fun i => m (truncated + i)) size remainder
  let st2 := treeUpdateV st1 fp
  let hashes := treeFinalizeV st2
  reduceSipTreeHash key.l0 key.l1 hashes

end TreeSIMD

/-- The targets `InstructionSets::Run` can dispatch to (instruction_sets.h). -/
inductive HHTarget where
  | avx2
  | sse41
  | portable
deriving DecidableEq

namespace Dispatch

/-- Feature bits of `InstructionSets` (instruction_sets.h). -/
def kInitialized : Nat := 1

/-- SSE bit. -/
def kSSE : Nat := 2

/-- SSE2 bit. -/
def kSSE2 : Nat := 4

/-- SSE3 bit. -/
def kSSE3 : Nat := 8

/-- SSSE3 bit. -/
def kSSSE3 : Nat := 0x10

/-- SSE4.1 bit. -/
def kSSE41 : Nat := 0x20

/-- SSE4.2 bit. -/
def kSSE42 : Nat := 0x40

/-- POPCNT bit. -/
def kPOPCNT : Nat := 0x80

/-- AVX bit. -/
def kAVX : Nat := 0x100

/-- AVX2 bit. -/
def kAVX2 : Nat := 0x200

/-- FMA bit. -/
def kFMA : Nat := 0x400

/-- LZCNT bit. -/
def kLZCNT : Nat := 0x800

/-- BMI bit. -/
def kBMI : Nat := 0x1000

/-- BMI2 bit. -/
def kBMI2 : Nat := 0x2000

/-- `kGroupAVX2` (instruction_sets.h). -/
def kGroupAVX2 : Nat := kAVX ||| kAVX2 ||| kFMA ||| kLZCNT ||| kBMI ||| kBMI2

/-- `kGroupSSE41` (instruction_sets.h). -/
def kGroupSSE41 : Nat := kSSE ||| kSSE2 ||| kSSE3 ||| kSSSE3 ||| kSSE41 ||| kPOPCNT

/-- The target selection of `InstructionSets::Run<F>` (instruction_sets.h):
which functor specialization is invoked for a given `Supported()` bitmask. -/
def runTarget (flags : Nat) : HHTarget :=
  if flags &&& kGroupAVX2 = kGroupAVX2 then HHTarget.avx2
  else if flags &&& kGroupSSE41 = kGroupSSE41 then HHTarget.sse41
  else HHTarget.portable

end Dispatch

namespace SpecSide

/-- The zipper-merge byte-shuffle control of the spec: destination byte `i`
of a 16-byte half is sourced from this position. -/
def zipperIdx : Nat → Nat
  | 0 => 0x3
  | 1 => 0xC
  | 2 => 0x2
  | 3 => 0x5
  | 4 => 0xE
  | 5 => 0x1
  | 6 => 0xF
  | 7 => 0x0
  | 8 => 0xB
  | 9 => 0x4
  | 10 => 0xA
  | 11 => 0xD
  | 12 => 0x9
  | 13 => 0x6
  | 14 => 0x8
  | _ => 0x7

/-- Spec-side `zipper_merge` on one 128-bit half `(lo, hi)`: destination
byte `i` is source byte `zipperIdx i` (low output lane: `i ∈ [0, 8)`). -/
def zipperHalfLo (lo hi : Nat) : Nat :=
  AVX2.halfByte lo hi (zipperIdx 0) + AVX2.halfByte lo hi (zipperIdx 1) * 2 ^ 8 +
  AVX2.halfByte lo hi (zipperIdx 2) * 2 ^ 16 + AVX2.halfByte lo hi (zipperIdx 3) * 2 ^ 24 +
  AVX2.halfByte lo hi (zipperIdx 4) * 2 ^ 32 + AVX2.halfByte lo hi (zipperIdx 5) * 2 ^ 40 +
  AVX2.halfByte lo hi (zipperIdx 6) * 2 ^ 48 + AVX2.halfByte lo hi (zipperIdx 7) * 2 ^ 56

/-- Spec-side `zipper_merge`, high output lane of a half: destination byte
`8 + i` is source byte `zipperIdx (8 + i)`. -/
def zipperHalfHi (lo hi : Nat) : Nat :=
  AVX2.halfByte lo hi (zipperIdx 8) + AVX2.halfByte lo hi (zipperIdx 9) * 2 ^ 8 +
  AVX2.halfByte lo hi (zipperIdx 10) * 2 ^ 16 + AVX2.halfByte lo hi (zipperIdx 11) * 2 ^ 24 +
  AVX2.halfByte lo hi (zipperIdx 12) * 2 ^ 32 + AVX2.halfByte lo hi (zipperIdx 13) * 2 ^ 40 +
  AVX2.halfByte lo hi (zipperIdx 14) * 2 ^ 48 + AVX2.halfByte lo hi (zipperIdx 15) * 2 ^ 56

/-- Spec-side `zipper_merge` on the four lanes (each 128-bit half permuted
independently with the same control). -/
def zipperMergeSpec (v : Lanes64) : Lanes64 :=
  ⟨zipperHalfLo v.l0 v.l1, zipperHalfHi v.l0 v.l1,
   zipperHalfLo v.l2 v.l3, zipperHalfHi v.l2 v.l3⟩

/-- Spec-side `mul_low32_to_64(a_lo32, b_hi32)`: lanewise full unsigned
32x32→64 product of the low 32 bits of `a` and the high 32 bits of `b`. -/
def mulLow32Spec (a b : Lanes64) : Lanes64 :=
  Lanes64.map2 (fun x y => (x % 2 ^ 32) * ((y >>> 32) % 2 ^ 32)) a b

/-- The seven update steps exactly as the claim orders them. -/
def updateSpec7 (s : HHSt) (p : Lanes64) : HHSt :=
  let v1s1 := addL s.v1 p
  let v1s2 := addL v1s1 s.mul0
  let mul0' := xorL s.mul0 (mulLow32Spec v1s2 s.v0)
  let v0s4 := addL s.v0 s.mul1
  let mul1' := xorL s.mul1 (mulLow32Spec v0s4 v1s2)
  let v0s6 := addL v0s4 (zipperMergeSpec v1s2)
  let v1s7 := addL v1s2 (zipperMergeSpec v0s6)
  { v0 := v0s6, v1 := v1s7, mul0 := mul0', mul1 := mul1' }

/-- The reference SipHash construction as the claim words it: chunk into
whole little-endian 8-byte packets, update on each, then one padded packet —
the residue (`size mod 8` bytes) copied into a zeroed 8-byte buffer whose
byte 7 is then set to `size & 0xFF` — then finalize. -/
def sipHashRef (k0 k1 : Nat) (l : List Nat) : Nat :=
  let size := l.length
  let words := (List.range (size / 8)).map (fun i => r64 (byteOf l) (8 * i))
  let s := words.foldl sipUpdate (sipNew k0 k1)
  let residue := l.drop (8 * (size / 8))
  let buffer := fun j => if j < residue.length then byteOf residue j else 0
  let padded := fun j => if j = 7 then size % 256 else buffer j
  sipFinalize (sipUpdate s (r64 padded 0))

end SpecSide

/-- All four SipHash words are valid `uint64_t` values. -/
def SipSt.bounded (s : SipSt) : Prop :=
  s.v0 < M64 ∧ s.v1 < M64 ∧ s.v2 < M64 ∧ s.v3 < M64

instance (s : SipSt) : Decidable s.bounded := by
  unfold SipSt.bounded
  infer_instance

/-- All registers of the vector SipTreeHash state hold valid lanes. -/
def TreeSIMD.SipV4.bounded (s : TreeSIMD.SipV4) : Prop :=
  s.v0.bounded ∧ s.v1.bounded ∧ s.v2.bounded ∧ s.v3.bounded

/-- One scalar SipHash state extracted from a lane of the vector
SipTreeHash state (`pr` projects the lane). -/
def TreeSIMD.laneSt (pr : Lanes64 → Nat) (s : TreeSIMD.SipV4) : SipSt :=
  ⟨pr s.v0, pr s.v1, pr s.v2, pr s.v3⟩

/-- The portable Cat state reached after appending exactly the bytes of `l`:
whole packets of `l` are in the hash state, the `l.length % 32` leftover
bytes sit in the buffer. -/
def catOfP (key : Lanes64) (l : List Nat) : CatSt HHSt :=
  { buffer := l.drop (l.length - l.length % 32)
    state := updLoop Portable.updateP (byteOf l) 0 ((l.length - l.length % 32) / 32)
      (Portable.hhNewP key) }

/-- The vector SipTreeHash state corresponding to four scalar lane states:
register `vK` holds the four scalar `vK` words, lane `j` = scalar state `j`. -/
def packTree (st : TreeScalar.TreeSts) : TreeSIMD.SipV4 :=
  { v0 := ⟨st.s0.v0, st.s1.v0, st.s2.v0, st.s3.v0⟩
    v1 := ⟨st.s0.v1, st.s1.v1, st.s2.v1, st.s3.v1⟩
    v2 := ⟨st.s0.v2, st.s1.v2, st.s2.v2, st.s3.v2⟩
    v3 := ⟨st.s0.v3, st.s1.v3, st.s2.v3, st.s3.v3⟩ }

/-- All four scalar lane states hold valid `uint64_t` words. -/
def TreeScalar.TreeSts.bounded (st : TreeScalar.TreeSts) : Prop :=
  st.s0.bounded ∧ st.s1.bounded ∧ st.s2.bounded ∧ st.s3.bounded

/-- `HighwayHashCatT::Append(bytes, num_bytes)` taking the fragment as a
pointer-and-length pair (memory `m`, `n` bytes): the `n` bytes read from the
source are `m 0 .. m (n-1)`. -/
def catAppendM {St : Type} (upd : St → Lanes64 → St) (m : Nat → Nat) (n : Nat)
    (c : CatSt St) : CatSt St :=
  catAppend upd c ((List.range n).map m)

/-! Helper lemmas on bit operations. -/

theorem and_mask_mod (x k : Nat) : x &&& (2 ^ k - 1) = x % 2 ^ k := by
  apply Nat.eq_of_testBit_eq
  intro i
  simp [Nat.testBit_and, Nat.testBit_two_pow_sub_one, Nat.testBit_mod_two_pow, Bool.and_comm]

theorem land_byte_shift (v k : Nat) : v &&& (255 <<< k) = ((v >>> k) % 256) <<< k := by
  apply Nat.eq_of_testBit_eq
  intro i
  have h255 : (255 : Nat) = 2 ^ 8 - 1 := by norm_num
  have h256 : (256 : Nat) = 2 ^ 8 := by norm_num
  simp only [Nat.testBit_and, Nat.testBit_shiftLeft, h255, h256, Nat.testBit_two_pow_sub_one,
    Nat.testBit_mod_two_pow, Nat.testBit_shiftRight]
  rcases Nat.lt_or_ge i k with h | h
  · simp [Nat.not_le.mpr h]
  · simp [h, Nat.testBit_mod_two_pow, Nat.testBit_shiftRight, Nat.add_sub_cancel' h,
      Bool.and_comm]

theorem lor_disjoint_eq_xor (a b : Nat) (h : a &&& b = 0) : a ||| b = a ^^^ b := by
  apply Nat.eq_of_testBit_eq
  intro i
  have hb : (a &&& b).testBit i = false := by rw [h]; simp
  rw [Nat.testBit_and] at hb
  simp only [Nat.testBit_or, Nat.testBit_xor]
  cases ha : a.testBit i <;> cases hbb : b.testBit i <;> simp_all

/-! C4: initialization. -/

/-- C4 counterexample: the claim puts `0x243f6a8885a308d3` in lane 0 of
`INIT0`, but the constructed state's `mul0` lane 0 is `0xdbe6d5d5fe4cce2f`
(the constants are stored in the opposite lane order). -/
theorem C4_counterexample :
    (Portable.hhNewP ⟨0, 0, 0, 0⟩).mul0.l0 ≠ 0x243f6a8885a308d3 := by
  decide

/-- C4 amended: after construction, `mul0 = INIT0`, `mul1 = INIT1`,
`v0 = key XOR INIT0` and `v1 = rotate64by32(key) XOR INIT1`, where lane 0..3
of `INIT0` are `0xdbe6d5d5fe4cce2f, 0xa4093822299f31d0, 0x13198a2e03707344,
0x243f6a8885a308d3` and lane 0..3 of `INIT1` are `0x3bd39e10cb0ef593,
0xc0acf169b5f18a8c, 0xbe5466cf34e90c6c, 0x452821e638d01377`; the AVX2
constructor produces the identical state. -/
theorem hhNew_eq (key : Lanes64) : AVX2.hhNewA key = Portable.hhNewP key := by
  have hrot : ∀ x, AVX2.rot64By32A x = Portable.rot64By32 x := by
    intro x
    have h1 : (x <<< 32) % M64 = (x % M32) <<< 32 := by
      simp only [Nat.shiftLeft_eq, M64, M32]
      omega
    unfold AVX2.rot64By32A Portable.rot64By32
    rw [h1, Nat.lor_comm]
  have hxc : ∀ a b : Lanes64, xorL a b = xorL b a := by
    intro a b
    unfold xorL Lanes64.map2
    simp [Nat.xor_comm]
  have hmap : Lanes64.map AVX2.rot64By32A key = Lanes64.map Portable.rot64By32 key := by
    unfold Lanes64.map
    rw [hrot, hrot, hrot, hrot]
  unfold AVX2.hhNewA Portable.hhNewP
  have h1 : AVX2.init0A = Portable.init0P := rfl
  have h2 : AVX2.init1A = Portable.init1P := rfl
  rw [h1, h2, hmap, hxc key Portable.init0P,
    hxc (Lanes64.map Portable.rot64By32 key) Portable.init1P]

/-- C4 amended: after construction, `mul0 = INIT0`, `mul1 = INIT1`,
`v0 = key XOR INIT0` and `v1 = rotate64by32(key) XOR INIT1`, where lane 0..3
of `INIT0` are `0xdbe6d5d5fe4cce2f, 0xa4093822299f31d0, 0x13198a2e03707344,
0x243f6a8885a308d3` and lane 0..3 of `INIT1` are `0x3bd39e10cb0ef593,
0xc0acf169b5f18a8c, 0xbe5466cf34e90c6c, 0x452821e638d01377`; the AVX2
constructor produces the identical state. -/
theorem C4_amended (key : Lanes64) :
    (Portable.hhNewP key).mul0 = Portable.init0P ∧
    (Portable.hhNewP key).mul1 = Portable.init1P ∧
    (Portable.hhNewP key).v0 = xorL Portable.init0P key ∧
    (Portable.hhNewP key).v1 = xorL Portable.init1P (Lanes64.map Portable.rot64By32 key) ∧
    AVX2.hhNewA key = Portable.hhNewP key ∧
    Portable.init0P = ⟨0xdbe6d5d5fe4cce2f, 0xa4093822299f31d0,
      0x13198a2e03707344, 0x243f6a8885a308d3⟩ ∧
    Portable.init1P = ⟨0x3bd39e10cb0ef593, 0xc0acf169b5f18a8c,
      0xbe5466cf34e90c6c, 0x452821e638d01377⟩ :=
  ⟨rfl, rfl, rfl, rfl, hhNew_eq key, rfl, rfl⟩

/-! C9: dispatcher case split. -/

theorem and_eq_self_iff_bits (f m : Nat) :
    (f &&& m = m) ↔ ∀ i, m.testBit i = true → f.testBit i = true := by
  constructor
  · intro h i hi
    have h2 := congrArg (fun x => Nat.testBit x i) h
    simp only [Nat.testBit_and, hi, Bool.and_true] at h2
    exact h2
  · intro h
    apply Nat.eq_of_testBit_eq
    intro i
    rw [Nat.testBit_and]
    cases hm : m.testBit i
    · simp
    · simp [h i hm]

theorem group_avx2_iff (f : Nat) :
    (f &&& Dispatch.kGroupAVX2 = Dispatch.kGroupAVX2) ↔
      (f.testBit 8 = true ∧ f.testBit 9 = true ∧ f.testBit 10 = true ∧
       f.testBit 11 = true ∧ f.testBit 12 = true ∧ f.testBit 13 = true) := by
  rw [and_eq_self_iff_bits]
  constructor
  · intro h
    exact ⟨h 8 (by decide), h 9 (by decide), h 10 (by decide),
      h 11 (by decide), h 12 (by decide), h 13 (by decide)⟩
  · rintro ⟨h8, h9, h10, h11, h12, h13⟩ i hi
    have hlt : i < 14 := by
      by_contra hge
      push_neg at hge
      have hsmall : Dispatch.kGroupAVX2 < 2 ^ i :=
        lt_of_lt_of_le (by decide : Dispatch.kGroupAVX2 < 2 ^ 14)
          (Nat.pow_le_pow_right (by norm_num) hge)
      rw [Nat.testBit_lt_two_pow hsmall] at hi
      exact Bool.false_ne_true hi
    interval_cases i <;>
      first
        | exact h8 | exact h9 | exact h10 | exact h11 | exact h12 | exact h13
        | exact absurd hi (by decide)

theorem group_sse41_iff (f : Nat) :
    (f &&& Dispatch.kGroupSSE41 = Dispatch.kGroupSSE41) ↔
      (f.testBit 1 = true ∧ f.testBit 2 = true ∧ f.testBit 3 = true ∧
       f.testBit 4 = true ∧ f.testBit 5 = true ∧ f.testBit 7 = true) := by
  rw [and_eq_self_iff_bits]
  constructor
  · intro h
    exact ⟨h 1 (by decide), h 2 (by decide), h 3 (by decide),
      h 4 (by decide), h 5 (by decide), h 7 (by decide)⟩
  · rintro ⟨h1, h2, h3, h4, h5, h7⟩ i hi
    have hlt : i < 8 := by
      by_contra hge
      push_neg at hge
      have hsmall : Dispatch.kGroupSSE41 < 2 ^ i :=
        lt_of_lt_of_le (by decide : Dispatch.kGroupSSE41 < 2 ^ 8)
          (Nat.pow_le_pow_right (by norm_num) hge)
      rw [Nat.testBit_lt_two_pow hsmall] at hi
      exact Bool.false_ne_true hi
    interval_cases i <;>
      first
        | exact h1 | exact h2 | exact h3 | exact h4 | exact h5 | exact h7
        | exact absurd hi (by decide)

/-- C9: for every `Supported()` bitmask, `Run<F>` invokes the AVX2 functor
iff the six bits AVX, AVX2, FMA, LZCNT, BMI, BMI2 (bits 8..13) are all set;
otherwise the SSE4.1 functor iff the six bits SSE, SSE2, SSE3, SSSE3,
SSE4.1, POPCNT (bits 1..5, 7) are all set; otherwise the portable functor —
some functor is invoked in every case (no failure branch). -/
theorem C9_dispatch_case_split (flags : Nat) :
    (Dispatch.runTarget flags = HHTarget.avx2 ↔
      (flags.testBit 8 = true ∧ flags.testBit 9 = true ∧ flags.testBit 10 = true ∧
       flags.testBit 11 = true ∧ flags.testBit 12 = true ∧ flags.testBit 13 = true)) ∧
    (¬(flags.testBit 8 = true ∧ flags.testBit 9 = true ∧ flags.testBit 10 = true ∧
       flags.testBit 11 = true ∧ flags.testBit 12 = true ∧ flags.testBit 13 = true) →
      (Dispatch.runTarget flags = HHTarget.sse41 ↔
        (flags.testBit 1 = true ∧ flags.testBit 2 = true ∧ flags.testBit 3 = true ∧
         flags.testBit 4 = true ∧ flags.testBit 5 = true ∧ flags.testBit 7 = true))) ∧
    (Dispatch.runTarget flags = HHTarget.avx2 ∨ Dispatch.runTarget flags = HHTarget.sse41 ∨
      Dispatch.runTarget flags = HHTarget.portable) := by
  unfold Dispatch.runTarget
  split_ifs with hA hS
  · have hb := (group_avx2_iff flags).mp hA
    refine ⟨⟨fun _ => hb, fun _ => rfl⟩, ?_, Or.inl rfl⟩
    intro hn
    exact absurd hb hn
  · have hs := (group_sse41_iff flags).mp hS
    refine ⟨⟨?_, ?_⟩, ?_, Or.inr (Or.inl rfl)⟩
    · intro h
      exact absurd h (by decide)
    · intro hb
      exact absurd ((group_avx2_iff flags).mpr hb) hA
    · intro _
      exact ⟨fun _ => hs, fun _ => rfl⟩
  · refine ⟨⟨?_, ?_⟩, ?_, Or.inr (Or.inr rfl)⟩
    · intro h
      exact absurd h (by decide)
    · intro hb
      exact absurd ((group_avx2_iff flags).mpr hb) hA
    · intro _
      refine ⟨?_, ?_⟩
      · intro h
        exact absurd h (by decide)
      · intro hb
        exact absurd ((group_sse41_iff flags).mpr hb) hS

/-! C5 and C10: driver call patterns. -/

theorem updLoopTrace_closed (count : Nat) :
    ∀ off, updLoopTrace off count = (List.range count).map (fun i => HHEvent.upd (off + 32 * i)) := by
  induction count with
  | zero => intro off; rfl
  | succ n ih =>
    intro off
    have harg : ∀ i : Nat, off + 32 + 32 * i = off + 32 * (i + 1) := by
      intro i
      ring
    rw [updLoopTrace, ih (off + 32)]
    simp [List.range_succ_eq_map, List.map_map, Function.comp, harg]

/-- C5: `HighwayHashT` calls `Update` exactly once per whole 32-byte packet,
at offsets `0, 32, …` in order; calls `UpdateRemainder(bytes + truncated,
size % 32)` iff `size % 32 ≠ 0` (never when the size is a multiple of 32,
including 0); and calls `Finalize` exactly once, at the end. -/
theorem C5_driver_call_pattern (size : Nat) :
    driverTrace size =
      (List.range (size / 32)).map (fun i => HHEvent.upd (32 * i)) ++
      (if size % 32 ≠ 0 then [HHEvent.rem (size - size % 32) (size % 32)] else []) ++
      [HHEvent.fin] := by
  unfold driverTrace
  dsimp only
  have hdiv : (size - size % 32) / 32 = size / 32 := by omega
  rw [hdiv, updLoopTrace_closed]
  simp

theorem sipLoop_foldl (count : Nat) :
    ∀ off s m, sipLoop m off count s = (sipLoopPackets m off count).foldl sipUpdate s := by
  induction count with
  | zero => intro off s m; rfl
  | succ n ih =>
    intro off s m
    rw [sipLoop, sipLoopPackets, List.foldl_cons, ih]

theorem sipLoopPackets_closed (count : Nat) :
    ∀ off m, sipLoopPackets m off count = (List.range count).map (fun i => r64 m (off + 8 * i)) := by
  induction count with
  | zero => intro off m; rfl
  | succ n ih =>
    intro off m
    have harg : ∀ i : Nat, off + 8 + 8 * i = off + 8 * (i + 1) := by
      intro i
      ring
    rw [sipLoopPackets, ih (off + 8)]
    simp [List.range_succ_eq_map, List.map_map, Function.comp, harg]

/-- C10: the SipHash driver `UpdateState` never skips the tail: the state
receives exactly `size / 8 + 1` packets — every whole 8-byte packet in offset
order and then, unconditionally, the padded packet; when `size % 8 = 0` the
padded packet is zero except byte 7 = `size & 0xFF` (so for the empty input
the single update packet is 0). -/
theorem C10_sip_unconditional_pad (m : Nat → Nat) (size : Nat) (s : SipSt) :
    (sipPackets m size).length = size / 8 + 1 ∧
    updateStateSip m size s = (sipPackets m size).foldl sipUpdate s ∧
    sipPackets m size =
      (List.range (size / 8)).map (fun i => r64 m (8 * i)) ++
        [sipPadWord size (fun i => m (size - size % 8 + i)) (size % 8)] ∧
    (size % 8 = 0 →
      sipPadWord size (fun i => m (size - size % 8 + i)) (size % 8) = size % 256 * 2 ^ 56) := by
  have hdiv : (size - size % 8) / 8 = size / 8 := by omega
  refine ⟨?_, ?_, ?_, ?_⟩
  · unfold sipPackets
    dsimp only
    rw [hdiv, sipLoopPackets_closed]
    simp
  · unfold updateStateSip sipPackets sipPaddedUpdate
    dsimp only
    rw [hdiv, sipLoop_foldl, List.foldl_append, List.foldl_cons, List.foldl_nil]
  · unfold sipPackets
    dsimp only
    rw [hdiv, sipLoopPackets_closed]
    simp
  · intro h0
    unfold sipPadWord r64 r32
    rw [h0]
    norm_num
    ring

/-- C10 witness: at the empty input the hypothesis of the padded-packet
clause holds and the single update packet is 0. -/
theorem C10_sip_unconditional_pad_witness :
    (0 : Nat) % 8 = 0 ∧
      sipPadWord 0 (fun i => (fun _ => (0 : Nat)) (0 - 0 % 8 + i)) (0 % 8) = 0 % 256 * 2 ^ 56 :=
  ⟨by decide, (C10_sip_unconditional_pad (fun _ => 0) 0 ⟨0, 0, 0, 0⟩).2.2.2 (by decide)⟩

/-! C3: the update steps and the zipper-merge shuffle. -/

set_option maxHeartbeats 1000000 in
theorem zipperMergeAndAdd_eq (hi lo a1 a0 : Nat) :
    Portable.zipperMergeAndAdd hi lo a1 a0 =
      ((a1 + SpecSide.zipperHalfHi lo hi) % M64, (a0 + SpecSide.zipperHalfLo lo hi) % M64) := by
  unfold Portable.zipperMergeAndAdd SpecSide.zipperHalfHi SpecSide.zipperHalfLo
  simp only [Portable.maskP, land_byte_shift, SpecSide.zipperIdx, AVX2.halfByte, AVX2.byteN]
  norm_num [Nat.shiftLeft_eq, Nat.shiftRight_eq_div_pow, M64, Prod.mk.injEq]
  constructor <;> omega

theorem updateLaneP_closed (v1l v0l m0 m1 : Nat) (h1 : v1l < 2 ^ 64) (h0 : v0l < 2 ^ 64) :
    Portable.updateLaneP v1l v0l m0 m1 =
      (m0 ^^^ v1l % 2 ^ 32 * ((v0l >>> 32) % 2 ^ 32),
       (v0l + m1) % 2 ^ 64,
       m1 ^^^ ((v0l + m1) % 2 ^ 64) % 2 ^ 32 * ((v1l >>> 32) % 2 ^ 32)) := by
  have hml : ∀ a b : Nat, b < 2 ^ 64 →
      (a % 2 ^ 32 * (b >>> 32)) % 2 ^ 64 = a % 2 ^ 32 * ((b >>> 32) % 2 ^ 32) := by
    intro a b hb
    have hs : b >>> 32 < 2 ^ 32 := by
      rw [Nat.shiftRight_eq_div_pow]
      omega
    rw [Nat.mod_eq_of_lt hs]
    apply Nat.mod_eq_of_lt
    calc a % 2 ^ 32 * (b >>> 32) ≤ (2 ^ 32 - 1) * (2 ^ 32 - 1) := by
          apply Nat.mul_le_mul <;> omega
      _ < 2 ^ 64 := by norm_num
  unfold Portable.updateLaneP
  simp only [M32, M64]
  rw [hml _ _ h0, hml _ _ h1]

theorem updateP_eq_spec7 (s : HHSt) (p : Lanes64) (hs : s.bounded) :
    Portable.updateP s p = SpecSide.updateSpec7 s p := by
  obtain ⟨⟨h00, h01, h02, h03⟩, _, _, _⟩ := hs
  unfold Portable.updateP SpecSide.updateSpec7 addL xorL Lanes64.map2
  dsimp only
  rw [updateLaneP_closed, updateLaneP_closed, updateLaneP_closed, updateLaneP_closed]
  · simp only [zipperMergeAndAdd_eq]
    unfold SpecSide.mulLow32Spec SpecSide.zipperMergeSpec Lanes64.map2
    dsimp only
    simp only [M32, M64]
  all_goals
    first
      | exact Nat.mod_lt _ (Nat.two_pow_pos 64)
      | exact h00
      | exact h01
      | exact h02
      | exact h03

/-! C1: portable / AVX2 equivalence. -/

theorem r32_bufP (m : Nat → Nat) (c j : Nat) (hc : c % 4 = 0) (hj : j % 4 = 0) :
    r32 (Portable.bufP m c) j = if j + 4 ≤ c then r32 m j else 0 := by
  unfold r32 Portable.bufP
  rcases le_or_lt (j + 4) c with h | h
  · rw [if_pos h, if_pos (by omega : j < c), if_pos (by omega : j + 1 < c),
      if_pos (by omega : j + 2 < c), if_pos (by omega : j + 3 < c)]
    omega
  · rw [if_neg (show ¬(j + 4 ≤ c) by omega), if_neg (show ¬(j < c) by omega),
      if_neg (show ¬(j + 1 < c) by omega), if_neg (show ¬(j + 2 < c) by omega),
      if_neg (show ¬(j + 3 < c) by omega)]
    simp

theorem and16_iff (x : Nat) : x &&& 16 ≠ 0 ↔ x / 16 % 2 = 1 := by
  rw [show (16 : Nat) = 2 ^ 4 from rfl, Nat.and_two_pow]
  have hb : x.testBit 4 = decide (x / 2 ^ 4 % 2 = 1) := Nat.testBit_to_div_mod
  cases h : x.testBit 4
  · rw [h] at hb
    simp only [h, Bool.toNat_false, Nat.zero_mul]
    simp at hb ⊢
    omega
  · rw [h] at hb
    simp only [h, Bool.toNat_true, Nat.one_mul]
    simp at hb ⊢
    omega

set_option maxRecDepth 4000 in
theorem tailPacket_eq (m : Nat → Nat) (smod : Nat) (hlt : smod < 32) :
    AVX2.tailPacketA m smod = Portable.tailPacketP m smod := by
  have hc4 : (smod - smod % 4) % 4 = 0 := by omega
  unfold AVX2.tailPacketA Portable.tailPacketP
  dsimp only
  by_cases h16 : smod &&& 16 ≠ 0
  · have h16' : 16 ≤ smod := by
      rw [and16_iff] at h16
      omega
    rw [if_pos h16, if_pos h16]
    unfold r64
    rw [r32_bufP m _ 0 hc4 (by omega), r32_bufP m _ 4 hc4 (by omega),
      r32_bufP m _ 8 hc4 (by omega), r32_bufP m _ 12 hc4 (by omega),
      r32_bufP m _ 16 hc4 (by omega), r32_bufP m _ 20 hc4 (by omega),
      r32_bufP m _ 24 hc4 (by omega)]
    simp only [Lanes64.mk.injEq]
    norm_num
    refine ⟨?_, ?_, ?_, ?_⟩ <;> split_ifs <;> omega
  · have h16' : smod < 16 := by
      rcases Nat.lt_or_ge smod 16 with h | h
      · exact h
      · exfalso
        apply h16
        rw [and16_iff]
        omega
    rw [if_neg h16, if_neg h16]
    unfold r64
    rw [r32_bufP m _ 0 hc4 (by omega), r32_bufP m _ 4 hc4 (by omega),
      r32_bufP m _ 8 hc4 (by omega), r32_bufP m _ 12 hc4 (by omega)]
    simp only [Lanes64.mk.injEq]
    simp only [show (0 : Nat) + 4 = 4 from rfl, show (8 : Nat) + 4 = 12 from rfl]
    refine ⟨?_, ?_, ?_, ?_⟩
    · split_ifs <;> omega
    · split_ifs <;> omega
    · split_ifs with hc
      · apply Nat.mod_eq_of_lt
        unfold M64
        omega
      · simp
    · split_ifs with hc
      · rw [Nat.shiftRight_eq_div_pow]
        omega
      · simp

/-- C3: one `Update` of a 32-byte packet performs exactly the seven claimed
steps in order, with `zipper_merge` the byte shuffle given by the control
`(3, C, 2, 5, E, 1, F, 0, B, 4, A, D, 9, 6, 8, 7)` on each 128-bit half and
`mul_low32_to_64` the full unsigned 32x32→64 product. -/
theorem C3_update_is_seven_steps (s : HHSt) (p : Lanes64) (hs : s.bounded) :
    Portable.updateP s p = SpecSide.updateSpec7 s p :=
  updateP_eq_spec7 s p hs

/-- C3 witness at a concrete bounded state and packet. -/
theorem C3_update_is_seven_steps_witness :
    (Portable.hhNewP ⟨1, 2, 3, 4⟩).bounded ∧
      Portable.updateP (Portable.hhNewP ⟨1, 2, 3, 4⟩) ⟨5, 6, 7, 8⟩ =
        SpecSide.updateSpec7 (Portable.hhNewP ⟨1, 2, 3, 4⟩) ⟨5, 6, 7, 8⟩ :=
  ⟨by decide, C3_update_is_seven_steps (Portable.hhNewP ⟨1, 2, 3, 4⟩) ⟨5, 6, 7, 8⟩ (by decide)⟩

theorem pshufb_zipper_lo (lo hi : Nat) :
    AVX2.pshufbLane 0x000F010E05020C03 lo hi = SpecSide.zipperHalfLo lo hi := by
  norm_num [AVX2.pshufbLane, SpecSide.zipperHalfLo, SpecSide.zipperIdx, AVX2.byteN,
    Nat.shiftRight_eq_div_pow]

theorem pshufb_zipper_hi (lo hi : Nat) :
    AVX2.pshufbLane 0x070806090D0A040B lo hi = SpecSide.zipperHalfHi lo hi := by
  norm_num [AVX2.pshufbLane, SpecSide.zipperHalfHi, SpecSide.zipperIdx, AVX2.byteN,
    Nat.shiftRight_eq_div_pow]

theorem mul32_mod_redundant (a b : Nat) :
    (a % M32 * (b % M32)) % M64 = a % 2 ^ 32 * (b % 2 ^ 32) := by
  simp only [M32, M64]
  apply Nat.mod_eq_of_lt
  calc a % 2 ^ 32 * (b % 2 ^ 32) ≤ (2 ^ 32 - 1) * (2 ^ 32 - 1) := by
        apply Nat.mul_le_mul <;> omega
    _ < 2 ^ 64 := by norm_num

theorem updateA_eq_spec7 (s : HHSt) (p : Lanes64) :
    AVX2.updateA s p = SpecSide.updateSpec7 s p := by
  unfold AVX2.updateA SpecSide.updateSpec7 AVX2.mulLow32A AVX2.shr32L AVX2.zipperMergeA
    SpecSide.mulLow32Spec SpecSide.zipperMergeSpec addL xorL Lanes64.map Lanes64.map2
  dsimp only
  simp only [pshufb_zipper_lo, pshufb_zipper_hi, mul32_mod_redundant]

theorem updateA_eq_updateP (s : HHSt) (p : Lanes64) (hs : s.bounded) :
    AVX2.updateA s p = Portable.updateP s p :=
  (updateA_eq_spec7 s p).trans (updateP_eq_spec7 s p hs).symm

theorem mod_M64_lt (x : Nat) : x % M64 < M64 :=
  Nat.mod_lt _ (Nat.two_pow_pos 64)

theorem zipAdd_fst_lt (a b c d : Nat) : (Portable.zipperMergeAndAdd a b c d).1 < M64 := by
  unfold Portable.zipperMergeAndAdd
  exact mod_M64_lt _

theorem zipAdd_snd_lt (a b c d : Nat) : (Portable.zipperMergeAndAdd a b c d).2 < M64 := by
  unfold Portable.zipperMergeAndAdd
  exact mod_M64_lt _

theorem updLane_fst_lt (a b c d : Nat) (h : c < M64) : (Portable.updateLaneP a b c d).1 < M64 := by
  unfold Portable.updateLaneP
  exact Nat.xor_lt_two_pow h (mod_M64_lt _)

theorem updLane_thd_lt (a b c d : Nat) (h : d < M64) :
    (Portable.updateLaneP a b c d).2.2 < M64 := by
  unfold Portable.updateLaneP
  exact Nat.xor_lt_two_pow h (mod_M64_lt _)

theorem updateP_bounded (s : HHSt) (p : Lanes64) (hs : s.bounded) :
    (Portable.updateP s p).bounded := by
  obtain ⟨_, _, ⟨hm00, hm01, hm02, hm03⟩, ⟨hm10, hm11, hm12, hm13⟩⟩ := hs
  unfold Portable.updateP
  dsimp only
  refine ⟨⟨?_, ?_, ?_, ?_⟩, ⟨?_, ?_, ?_, ?_⟩, ⟨?_, ?_, ?_, ?_⟩, ⟨?_, ?_, ?_, ?_⟩⟩
  all_goals dsimp only
  · exact zipAdd_snd_lt _ _ _ _
  · exact zipAdd_fst_lt _ _ _ _
  · exact zipAdd_snd_lt _ _ _ _
  · exact zipAdd_fst_lt _ _ _ _
  · exact zipAdd_snd_lt _ _ _ _
  · exact zipAdd_fst_lt _ _ _ _
  · exact zipAdd_snd_lt _ _ _ _
  · exact zipAdd_fst_lt _ _ _ _
  · exact updLane_fst_lt _ _ _ _ hm00
  · exact updLane_fst_lt _ _ _ _ hm01
  · exact updLane_fst_lt _ _ _ _ hm02
  · exact updLane_fst_lt _ _ _ _ hm03
  · exact updLane_thd_lt _ _ _ _ hm10
  · exact updLane_thd_lt _ _ _ _ hm11
  · exact updLane_thd_lt _ _ _ _ hm12
  · exact updLane_thd_lt _ _ _ _ hm13

theorem rot64By32_lt (x : Nat) (hx : x < M64) : Portable.rot64By32 x < M64 := by
  unfold Portable.rot64By32
  apply Nat.or_lt_two_pow
  · rw [Nat.shiftRight_eq_div_pow]
    unfold M64 at hx
    omega
  · exact mod_M64_lt _

theorem xorL_bounded (a b : Lanes64) (ha : a.bounded) (hb : b.bounded) : (xorL a b).bounded := by
  obtain ⟨a0, a1, a2, a3⟩ := ha
  obtain ⟨b0, b1, b2, b3⟩ := hb
  exact ⟨Nat.xor_lt_two_pow a0 b0, Nat.xor_lt_two_pow a1 b1, Nat.xor_lt_two_pow a2 b2,
    Nat.xor_lt_two_pow a3 b3⟩

theorem hhNewP_bounded (key : Lanes64) (hk : key.bounded) :
    (Portable.hhNewP key).bounded := by
  obtain ⟨h0, h1, h2, h3⟩ := hk
  have hi0 : Portable.init0P.bounded := by decide
  have hi1 : Portable.init1P.bounded := by decide
  refine ⟨xorL_bounded _ _ hi0 ⟨h0, h1, h2, h3⟩, xorL_bounded _ _ hi1 ?_, hi0, hi1⟩
  exact ⟨rot64By32_lt _ h0, rot64By32_lt _ h1, rot64By32_lt _ h2, rot64By32_lt _ h3⟩

theorem updLoop_bounded (m : Nat → Nat) (count : Nat) :
    ∀ off s, HHSt.bounded s → (updLoop Portable.updateP m off count s).bounded := by
  induction count with
  | zero => intro off s hs; exact hs
  | succ n ih =>
    intro off s hs
    rw [updLoop]
    exact ih _ _ (updateP_bounded _ _ hs)

theorem updLoop_eq (m : Nat → Nat) (count : Nat) :
    ∀ off s, HHSt.bounded s →
      updLoop AVX2.updateA m off count s = updLoop Portable.updateP m off count s := by
  induction count with
  | zero =>
    intro off s _
    rw [updLoop, updLoop]
  | succ n ih =>
    intro off s hs
    rw [updLoop, updLoop, updateA_eq_updateP _ _ hs]
    exact ih _ _ (updateP_bounded _ _ hs)

theorem rot32_lt (y c : Nat) (hy : y < M32) : Portable.rot32 y c < M32 := by
  unfold Portable.rot32
  apply Nat.or_lt_two_pow
  · exact Nat.mod_lt _ (Nat.two_pow_pos 32)
  · rw [Nat.shiftRight_eq_div_pow]
    exact lt_of_le_of_lt (Nat.div_le_self _ _) hy

theorem rot32Lane_lt (x c : Nat) (hx : x < M64) : Portable.rot32Lane x c < M64 := by
  have h1 : Portable.rot32 (x % M32) c < M32 := rot32_lt _ _ (Nat.mod_lt _ (Nat.two_pow_pos 32))
  have h2 : Portable.rot32 (x >>> 32) c < M32 := by
    apply rot32_lt
    rw [Nat.shiftRight_eq_div_pow]
    unfold M32
    unfold M64 at hx
    omega
  unfold Portable.rot32Lane
  revert h1 h2
  generalize Portable.rot32 (x % M32) c = a
  generalize Portable.rot32 (x >>> 32) c = b
  intro h1 h2
  unfold M32 at h1 h2
  unfold M64
  omega

theorem rot32Lane_eq (x c : Nat) : AVX2.rot32LaneA x c = Portable.rot32Lane x c := rfl

theorem updateRemainder_eq (m : Nat → Nat) (smod : Nat) (s : HHSt) (hs : s.bounded)
    (hlt : smod < 32) :
    AVX2.updateRemainderA m smod s = Portable.updateRemainderP m smod s := by
  obtain ⟨⟨h00, h01, h02, h03⟩, ⟨h10, h11, h12, h13⟩, hm0, hm1⟩ := hs
  unfold AVX2.updateRemainderA Portable.updateRemainderP
  dsimp only
  have hpair : ∀ x : Nat,
      (x + (smod % M32 + smod % M32 * 2 ^ 32)) % M64 = (x + (smod <<< 32 + smod)) % M64 := by
    intro x
    have hsm : smod % M32 = smod := Nat.mod_eq_of_lt (by unfold M32; omega)
    rw [hsm, Nat.shiftLeft_eq]
    have harg : x + (smod + smod * 2 ^ 32) = x + (smod * 2 ^ 32 + smod) := by omega
    rw [harg]
  have hv0 : Lanes64.map (fun x => (x + (smod % M32 + smod % M32 * 2 ^ 32)) % M64) s.v0 =
      Lanes64.map (fun x => (x + (smod <<< 32 + smod)) % M64) s.v0 := by
    unfold Lanes64.map
    dsimp only
    rw [hpair, hpair, hpair, hpair]
  have hv1 : Lanes64.map (fun x => AVX2.rot32LaneA x smod) s.v1 =
      Lanes64.map (fun x => Portable.rot32Lane x smod) s.v1 := rfl
  rw [hv0, hv1, tailPacket_eq m smod hlt]
  apply updateA_eq_updateP
  refine ⟨⟨?_, ?_, ?_, ?_⟩, ⟨?_, ?_, ?_, ?_⟩, hm0, hm1⟩ <;>
    first
      | exact mod_M64_lt _
      | exact rot32Lane_lt _ _ h10
      | exact rot32Lane_lt _ _ h11
      | exact rot32Lane_lt _ _ h12
      | exact rot32Lane_lt _ _ h13

theorem shl32_mod (x : Nat) : (x <<< 32) % M64 = (x % M32) <<< 32 := by
  simp only [Nat.shiftLeft_eq, M64, M32]
  omega

theorem permuteA_eq (v : Lanes64) : AVX2.permuteA v = Portable.permuteP v := by
  unfold AVX2.permuteA Portable.permuteP AVX2.dwordv Portable.rot64By32
  norm_num
  refine ⟨?_, ?_, ?_, ?_⟩ <;> rw [shl32_mod, Nat.lor_comm]

theorem final4_eq (s : HHSt) (hs : s.bounded) : AVX2.final4A s = Portable.final4P s := by
  unfold AVX2.final4A Portable.final4P Portable.permuteAndUpdateP
  dsimp only
  have h1 : s.bounded := hs
  rw [permuteA_eq, updateA_eq_updateP _ _ h1]
  have h2 := updateP_bounded s (Portable.permuteP s.v0) h1
  rw [permuteA_eq, updateA_eq_updateP _ _ h2]
  have h3 := updateP_bounded _ (Portable.permuteP (Portable.updateP s
    (Portable.permuteP s.v0)).v0) h2
  rw [permuteA_eq, updateA_eq_updateP _ _ h3]
  have h4 := updateP_bounded _ (Portable.permuteP (Portable.updateP (Portable.updateP s
    (Portable.permuteP s.v0)) (Portable.permuteP (Portable.updateP s
      (Portable.permuteP s.v0)).v0)).v0) h3
  rw [permuteA_eq, updateA_eq_updateP _ _ h4]

theorem final4P_bounded (s : HHSt) (hs : s.bounded) : (Portable.final4P s).bounded := by
  unfold Portable.final4P Portable.permuteAndUpdateP
  exact updateP_bounded _ _ (updateP_bounded _ _ (updateP_bounded _ _ (updateP_bounded _ _ hs)))

theorem finalize64_eq (s : HHSt) (hs : s.bounded) :
    AVX2.finalize64A s = Portable.finalize64P s := by
  unfold AVX2.finalize64A Portable.finalize64P
  dsimp only
  rw [final4_eq s hs]
  unfold addL Lanes64.map2
  dsimp only
  unfold M64
  omega

theorem finalize128_eq (s : HHSt) (hs : s.bounded) :
    AVX2.finalize128A s = Portable.finalize128P s := by
  unfold AVX2.finalize128A Portable.finalize128P
  dsimp only
  rw [final4_eq s hs]
  unfold addL Lanes64.map2
  dsimp only
  simp only [Prod.mk.injEq]
  constructor <;> (unfold M64; omega)

theorem even_and_le_one (a b : Nat) (ha : a % 2 = 0) (hb : b ≤ 1) : a &&& b = 0 := by
  interval_cases b
  · simp
  · rw [Nat.and_one_is_mod]
    exact ha

theorem mult4_and_le_three (a b : Nat) (ha : a % 4 = 0) (hb : b ≤ 3) : a &&& b = 0 := by
  have h3 : (3 : Nat) = 2 ^ 2 - 1 := by norm_num
  have hb4 : b &&& 3 = b := by
    rw [h3, and_mask_mod]
    omega
  calc a &&& b = a &&& (b &&& 3) := by rw [hb4]
    _ = a &&& (3 &&& b) := by rw [Nat.and_comm b 3]
    _ = (a &&& 3) &&& b := by rw [Nat.and_assoc]
    _ = (a % 2 ^ 2) &&& b := by rw [h3, and_mask_mod]
    _ = (a % 4) &&& b := by norm_num
    _ = 0 &&& b := by rw [ha]
    _ = 0 := Nat.zero_and b

theorem modredP_lane (a3u a2 a1 a0 : Nat) (h2 : a2 < M64) :
    Portable.modularReductionP a3u a2 a1 a0 =
      (a1 ^^^ (2 * (a3u % 2 ^ 62) ^^^ a2 >>> 63) ^^^ (4 * (a3u % 2 ^ 62) ^^^ a2 >>> 62),
       a0 ^^^ ((a2 <<< 1) % M64) ^^^ ((a2 <<< 2) % M64)) := by
  unfold Portable.modularReductionP Portable.shift128Left
  dsimp only
  rw [show (0x3FFFFFFFFFFFFFFF : Nat) = 2 ^ 62 - 1 by norm_num, and_mask_mod]
  simp only [show (64 : Nat) - 1 = 63 from rfl, show (64 : Nat) - 2 = 62 from rfl]
  have hA1 : ((a3u % 2 ^ 62) <<< 1) % M64 = 2 * (a3u % 2 ^ 62) := by
    rw [Nat.shiftLeft_eq]
    unfold M64
    omega
  have hA2 : ((a3u % 2 ^ 62) <<< 2) % M64 = 4 * (a3u % 2 ^ 62) := by
    rw [Nat.shiftLeft_eq]
    unfold M64
    omega
  have ht63 : a2 >>> 63 ≤ 1 := by
    rw [Nat.shiftRight_eq_div_pow]
    unfold M64 at h2
    omega
  have ht62 : a2 >>> 62 ≤ 3 := by
    rw [Nat.shiftRight_eq_div_pow]
    unfold M64 at h2
    omega
  rw [hA1, hA2, lor_disjoint_eq_xor _ _ (even_and_le_one _ _ (by omega) ht63),
    lor_disjoint_eq_xor _ _ (mult4_and_le_three _ _ (by omega) ht62)]

theorem nat_xor_left_comm (a b c : Nat) : a ^^^ (b ^^^ c) = b ^^^ (a ^^^ c) := by
  rw [← Nat.xor_assoc, Nat.xor_comm a b, Nat.xor_assoc]

theorem modularReductionA_eq (s1v s0v : Lanes64) (ha : s1v.l0 < M64) (hb : s1v.l2 < M64) :
    AVX2.modularReductionA s1v s0v =
      ⟨(Portable.modularReductionP s1v.l1 s1v.l0 s0v.l1 s0v.l0).2,
       (Portable.modularReductionP s1v.l1 s1v.l0 s0v.l1 s0v.l0).1,
       (Portable.modularReductionP s1v.l3 s1v.l2 s0v.l3 s0v.l2).2,
       (Portable.modularReductionP s1v.l3 s1v.l2 s0v.l3 s0v.l2).1⟩ := by
  rw [modredP_lane _ _ _ _ ha, modredP_lane _ _ _ _ hb]
  unfold AVX2.modularReductionA AVX2.xorByShift128Left12A AVX2.andnot64 addL xorL
    Lanes64.map Lanes64.map2
  dsimp only
  simp only [Nat.xor_self, show (64 : Nat) - 1 = 63 from rfl, show (64 : Nat) - 2 = 62 from rfl]
  have hz : ((0 : Nat) <<< 63) % M64 = 0 := by decide
  have hmask1 : (M64 - 1) ^^^ (((M64 : Nat) - 1) <<< 63) % M64 = 2 ^ 63 - 1 := by decide
  have hm64 : (M64 : Nat) - 1 = 2 ^ 64 - 1 := rfl
  rw [hz]
  have hxz : (M64 - 1) ^^^ (0 : Nat) = M64 - 1 := Nat.xor_zero _
  rw [hxz, hmask1]
  have hs1 : ∀ a : Nat, ((a + a) % M64) &&& (M64 - 1) = (a <<< 1) % M64 := by
    intro a
    rw [hm64, and_mask_mod, Nat.shiftLeft_eq]
    unfold M64
    omega
  have hs2 : ∀ a : Nat, ((a + a) % M64 + (a + a) % M64) % M64 = (a <<< 2) % M64 := by
    intro a
    rw [Nat.shiftLeft_eq]
    unfold M64
    omega
  have hs1h : ∀ a : Nat, ((a + a) % M64) &&& (2 ^ 63 - 1) = 2 * (a % 2 ^ 62) := by
    intro a
    rw [and_mask_mod]
    unfold M64
    omega
  have hs2h : ∀ a : Nat, ((a + a) % M64 + (a + a) % M64) % M64 = 4 * (a % 2 ^ 62) := by
    intro a
    unfold M64
    omega
  simp only [Lanes64.mk.injEq]
  refine ⟨?_, ?_, ?_, ?_⟩
  · rw [hs1, hs2]
    simp [Nat.xor_assoc, Nat.xor_comm, nat_xor_left_comm]
  · rw [hs1h, hs2h]
    simp [Nat.xor_assoc, Nat.xor_comm, nat_xor_left_comm]
  · rw [hs1, hs2]
    simp [Nat.xor_assoc, Nat.xor_comm, nat_xor_left_comm]
  · rw [hs1h, hs2h]
    simp [Nat.xor_assoc, Nat.xor_comm, nat_xor_left_comm]

theorem finalize256_eq (s : HHSt) (hs : s.bounded) :
    AVX2.finalize256A s = Portable.finalize256P s := by
  unfold AVX2.finalize256A Portable.finalize256P
  dsimp only
  rw [final4_eq s hs]
  rw [modularReductionA_eq _ _ (mod_M64_lt _) (mod_M64_lt _)]
  unfold addL Lanes64.map2
  dsimp only

theorem updateRemainderP_bounded (m : Nat → Nat) (c : Nat) (s : HHSt) (hs : s.bounded) :
    (Portable.updateRemainderP m c s).bounded := by
  obtain ⟨⟨h00, h01, h02, h03⟩, ⟨h10, h11, h12, h13⟩, hm0, hm1⟩ := hs
  unfold Portable.updateRemainderP
  dsimp only
  apply updateP_bounded
  refine ⟨⟨?_, ?_, ?_, ?_⟩, ⟨?_, ?_, ?_, ?_⟩, hm0, hm1⟩
  all_goals dsimp only [Lanes64.map]
  · exact mod_M64_lt _
  · exact mod_M64_lt _
  · exact mod_M64_lt _
  · exact mod_M64_lt _
  · exact rot32Lane_lt _ _ h10
  · exact rot32Lane_lt _ _ h11
  · exact rot32Lane_lt _ _ h12
  · exact rot32Lane_lt _ _ h13

theorem highwayHashT_eq {R : Type} (finA finP : HHSt → R)
    (hfin : ∀ s, s.bounded → finA s = finP s) (key : Lanes64) (hk : key.bounded)
    (m : Nat → Nat) (size : Nat) :
    highwayHashT AVX2.updateA AVX2.updateRemainderA finA (AVX2.hhNewA key) m size =
      highwayHashT Portable.updateP Portable.updateRemainderP finP (Portable.hhNewP key)
        m size := by
  unfold highwayHashT
  dsimp only
  rw [hhNew_eq key, updLoop_eq m _ 0 _ (hhNewP_bounded key hk)]
  have hb : (updLoop Portable.updateP m 0 ((size - size % 32) / 32)
      (Portable.hhNewP key)).bounded :=
    updLoop_bounded m _ 0 _ (hhNewP_bounded key hk)
  by_cases h : size % 32 ≠ 0
  · rw [if_pos h, if_pos h,
      updateRemainder_eq _ _ _ hb (Nat.mod_lt _ (by norm_num))]
    exact hfin _ (updateRemainderP_bounded _ _ _ hb)
  · rw [if_neg h, if_neg h]
    exact hfin _ hb

/-- C1: for every key and byte string (any length, both tail branches and the
empty input), the portable and AVX2 implementations run through the same
driver `HighwayHashT` have bit-identical state (v0, v1, mul0, mul1) after
every update — both after each whole-packet `Update` and after the tail
`UpdateRemainder` — and produce identical 64-, 128- and 256-bit digests. -/
theorem C1_portable_avx2_equivalence (key : Lanes64) (hk : key.bounded) (m : Nat → Nat)
    (size : Nat) :
    (∀ k : Nat, updLoop AVX2.updateA m 0 k (AVX2.hhNewA key) =
      updLoop Portable.updateP m 0 k (Portable.hhNewP key)) ∧
    (size % 32 ≠ 0 →
      AVX2.updateRemainderA (fun i => m (size - size % 32 + i)) (size % 32)
          (updLoop AVX2.updateA m 0 ((size - size % 32) / 32) (AVX2.hhNewA key)) =
        Portable.updateRemainderP (fun i => m (size - size % 32 + i)) (size % 32)
          (updLoop Portable.updateP m 0 ((size - size % 32) / 32) (Portable.hhNewP key))) ∧
    hash64A key m size = hash64P key m size ∧
    hash128A key m size = hash128P key m size ∧
    hash256A key m size = hash256P key m size := by
  have hloop : ∀ k : Nat, updLoop AVX2.updateA m 0 k (AVX2.hhNewA key) =
      updLoop Portable.updateP m 0 k (Portable.hhNewP key) := by
    intro k
    rw [hhNew_eq key]
    exact updLoop_eq m k 0 _ (hhNewP_bounded key hk)
  refine ⟨hloop, ?_, ?_, ?_, ?_⟩
  · intro h
    rw [hloop]
    exact updateRemainder_eq _ _ _ (updLoop_bounded m _ 0 _ (hhNewP_bounded key hk))
      (Nat.mod_lt _ (by norm_num))
  · exact highwayHashT_eq _ _ finalize64_eq key hk m size
  · exact highwayHashT_eq _ _ finalize128_eq key hk m size
  · exact highwayHashT_eq _ _ finalize256_eq key hk m size

/-- C1 witness at a concrete key, memory and size. -/
theorem C1_portable_avx2_equivalence_witness :
    Lanes64.bounded ⟨0, 0, 0, 0⟩ ∧
      ((∀ k : Nat, updLoop AVX2.updateA (fun _ => 0) 0 k (AVX2.hhNewA ⟨0, 0, 0, 0⟩) =
        updLoop Portable.updateP (fun _ => 0) 0 k (Portable.hhNewP ⟨0, 0, 0, 0⟩)) ∧
      (7 % 32 ≠ 0 →
        AVX2.updateRemainderA (fun i => (fun _ => (0 : Nat)) (7 - 7 % 32 + i)) (7 % 32)
            (updLoop AVX2.updateA (fun _ => 0) 0 ((7 - 7 % 32) / 32) (AVX2.hhNewA ⟨0, 0, 0, 0⟩)) =
          Portable.updateRemainderP (fun i => (fun _ => (0 : Nat)) (7 - 7 % 32 + i)) (7 % 32)
            (updLoop Portable.updateP (fun _ => 0) 0 ((7 - 7 % 32) / 32)
              (Portable.hhNewP ⟨0, 0, 0, 0⟩))) ∧
      hash64A ⟨0, 0, 0, 0⟩ (fun _ => 0) 7 = hash64P ⟨0, 0, 0, 0⟩ (fun _ => 0) 7 ∧
      hash128A ⟨0, 0, 0, 0⟩ (fun _ => 0) 7 = hash128P ⟨0, 0, 0, 0⟩ (fun _ => 0) 7 ∧
      hash256A ⟨0, 0, 0, 0⟩ (fun _ => 0) 7 = hash256P ⟨0, 0, 0, 0⟩ (fun _ => 0) 7) :=
  ⟨by decide, C1_portable_avx2_equivalence ⟨0, 0, 0, 0⟩ (by decide) (fun _ => 0) 7⟩

/-! C6: all reads are within `[0, size)`. -/

theorem r32_congr (m1 m2 : Nat → Nat) (size a : Nat) (h : ∀ i, i < size → m1 i = m2 i)
    (ha : a + 4 ≤ size) : r32 m1 a = r32 m2 a := by
  unfold r32
  rw [h a (by omega), h (a + 1) (by omega), h (a + 2) (by omega), h (a + 3) (by omega)]

theorem r64_congr (m1 m2 : Nat → Nat) (size a : Nat) (h : ∀ i, i < size → m1 i = m2 i)
    (ha : a + 8 ≤ size) : r64 m1 a = r64 m2 a := by
  unfold r64
  rw [r32_congr m1 m2 size a h (by omega), r32_congr m1 m2 size (a + 4) h (by omega)]

theorem packetAt_congr (m1 m2 : Nat → Nat) (size off : Nat) (h : ∀ i, i < size → m1 i = m2 i)
    (hoff : off + 32 ≤ size) : packetAt m1 off = packetAt m2 off := by
  unfold packetAt
  rw [r64_congr m1 m2 size off h (by omega), r64_congr m1 m2 size (off + 8) h (by omega),
    r64_congr m1 m2 size (off + 16) h (by omega), r64_congr m1 m2 size (off + 24) h (by omega)]

theorem updLoop_congr (m1 m2 : Nat → Nat) (size : Nat) (h : ∀ i, i < size → m1 i = m2 i)
    (count : Nat) :
    ∀ off s, off + 32 * count ≤ size →
      updLoop Portable.updateP m1 off count s = updLoop Portable.updateP m2 off count s := by
  induction count with
  | zero => intro off s _; rw [updLoop, updLoop]
  | succ n ih =>
    intro off s hoff
    rw [updLoop, updLoop, packetAt_congr m1 m2 size off h (by omega)]
    exact ih (off + 32) _ (by omega)

theorem bufP_congr (m1 m2 : Nat → Nat) (size c : Nat) (h : ∀ i, i < size → m1 i = m2 i)
    (hc : c ≤ size) : Portable.bufP m1 c = Portable.bufP m2 c := by
  funext i
  unfold Portable.bufP
  split_ifs with hi
  · rw [h i (by omega)]
  · rfl

theorem tailPacketP_congr (m1 m2 : Nat → Nat) (smod : Nat) (h : ∀ i, i < smod → m1 i = m2 i)
    (hlt : smod < 32) : Portable.tailPacketP m1 smod = Portable.tailPacketP m2 smod := by
  unfold Portable.tailPacketP
  dsimp only
  rw [bufP_congr m1 m2 smod _ h (by omega)]
  by_cases h16 : smod &&& 16 ≠ 0
  · have h16' : 16 ≤ smod := by
      rw [and16_iff] at h16
      omega
    rw [if_pos h16, if_pos h16,
      r32_congr m1 m2 smod (smod - 4) h (by omega)]
  · rw [if_neg h16, if_neg h16]
    by_cases h4 : smod % 4 ≠ 0
    · have hb1 : (smod % 4) >>> 1 < smod % 4 := by
        have he : (smod % 4) >>> 1 = smod % 4 / 2 ^ 1 := Nat.shiftRight_eq_div_pow _ 1
        have he2 : (2 : Nat) ^ 1 = 2 := by norm_num
        rw [he2] at he
        omega
      rw [if_pos h4, if_pos h4, h (smod - smod % 4 + 0) (by omega),
        h (smod - smod % 4 + (smod % 4) >>> 1) (by omega),
        h (smod - smod % 4 + (smod % 4 - 1)) (by omega)]
    · rw [if_neg h4, if_neg h4]

theorem updateRemainderP_congr (m1 m2 : Nat → Nat) (smod : Nat) (s : HHSt)
    (h : ∀ i, i < smod → m1 i = m2 i) (hlt : smod < 32) :
    Portable.updateRemainderP m1 smod s = Portable.updateRemainderP m2 smod s := by
  unfold Portable.updateRemainderP
  dsimp only
  rw [tailPacketP_congr m1 m2 smod h hlt]

theorem hashP_congr {R : Type} (fin : HHSt → R) (key : Lanes64) (m1 m2 : Nat → Nat)
    (size : Nat) (h : ∀ i, i < size → m1 i = m2 i) :
    highwayHashT Portable.updateP Portable.updateRemainderP fin (Portable.hhNewP key)
        m1 size =
      highwayHashT Portable.updateP Portable.updateRemainderP fin (Portable.hhNewP key)
        m2 size := by
  unfold highwayHashT
  dsimp only
  rw [updLoop_congr m1 m2 size h _ 0 _ (by omega)]
  by_cases hr : size % 32 ≠ 0
  · rw [if_pos hr, if_pos hr,
      updateRemainderP_congr _ _ _ _ (fun i hi => h _ (by omega)) (Nat.mod_lt _ (by norm_num))]
  · rw [if_neg hr, if_neg hr]

/-- C6: evaluating the full hash reads only byte indices in `[0, size)`:
the one-shot driver at all three widths, the Cat `Append` on a fragment of
`n` bytes, and `UpdateRemainder` for every residue depend only on the bytes
below the respective size. -/
theorem C6_reads_in_bounds (key : Lanes64) (m1 m2 : Nat → Nat) (size : Nat)
    (h : ∀ i, i < size → m1 i = m2 i) :
    hash64P key m1 size = hash64P key m2 size ∧
    hash128P key m1 size = hash128P key m2 size ∧
    hash256P key m1 size = hash256P key m2 size ∧
    (∀ c : CatSt HHSt, catAppendM Portable.updateP m1 size c =
      catAppendM Portable.updateP m2 size c) ∧
    (∀ smod s, smod ≤ size → smod < 32 →
      Portable.updateRemainderP m1 smod s = Portable.updateRemainderP m2 smod s) := by
  refine ⟨hashP_congr _ key m1 m2 size h, hashP_congr _ key m1 m2 size h,
    hashP_congr _ key m1 m2 size h, ?_, ?_⟩
  · intro c
    unfold catAppendM
    have hmap : (List.range size).map m1 = (List.range size).map m2 := by
      apply List.map_congr_left
      intro i hi
      exact h i (List.mem_range.mp hi)
    rw [hmap]
  · intro smod s hsz hlt
    exact updateRemainderP_congr m1 m2 smod s (fun i hi => h i (by omega)) hlt

/-- C6 witness: two memories agreeing below the size give equal results. -/
theorem C6_reads_in_bounds_witness :
    (∀ i, i < 5 → (fun j => j) i = (fun j => if j < 5 then j else 99) i) ∧
      (hash64P ⟨0, 0, 0, 0⟩ (fun j => j) 5 =
        hash64P ⟨0, 0, 0, 0⟩ (fun j => if j < 5 then j else 99) 5 ∧
      hash128P ⟨0, 0, 0, 0⟩ (fun j => j) 5 =
        hash128P ⟨0, 0, 0, 0⟩ (fun j => if j < 5 then j else 99) 5 ∧
      hash256P ⟨0, 0, 0, 0⟩ (fun j => j) 5 =
        hash256P ⟨0, 0, 0, 0⟩ (fun j => if j < 5 then j else 99) 5 ∧
      (∀ c : CatSt HHSt, catAppendM Portable.updateP (fun j => j) 5 c =
        catAppendM Portable.updateP (fun j => if j < 5 then j else 99) 5 c) ∧
      (∀ smod s, smod ≤ 5 → smod < 32 →
        Portable.updateRemainderP (fun j => j) smod s =
          Portable.updateRemainderP (fun j => if j < 5 then j else 99) smod s)) :=
  ⟨fun i hi => by simp [hi], C6_reads_in_bounds ⟨0, 0, 0, 0⟩ _ _ 5
    (fun i hi => by simp [hi])⟩

/-! C7: SipHash equals its reference construction. -/

theorem byteOf_drop (l : List Nat) (n j : Nat) : byteOf (l.drop n) j = byteOf l (n + j) := by
  unfold byteOf
  simp [List.getD_eq_getElem?_getD, List.getElem?_drop]

/-- C7: `SipHash` (ComputeHash over SipHashState) equals the reference
construction: init by XOR-ing the key into the four constants, one update
(`v3 ^= packet`, 2 SipRounds, `v0 ^= packet`) per whole little-endian 8-byte
packet, a final packet built from the residue in a zeroed buffer with byte 7
set to `size & 0xFF`, and finalize (`v2 ^= 0xFF`, 4 SipRounds, xor of all). -/
theorem C7_siphash_reference (k0 k1 : Nat) (l : List Nat) :
    sipHash k0 k1 (byteOf l) l.length = SpecSide.sipHashRef k0 k1 l := by
  unfold sipHash updateStateSip SpecSide.sipHashRef sipPaddedUpdate
  dsimp only
  rw [sipLoop_foldl, sipLoopPackets_closed]
  have hdiv : (l.length - l.length % 8) / 8 = l.length / 8 := by omega
  rw [hdiv]
  simp only [Nat.zero_add]
  have hpad : sipPadWord l.length (fun i => byteOf l (l.length - l.length % 8 + i))
      (l.length % 8) =
      r64 (fun j => if j = 7 then l.length % 256
        else if j < (l.drop (8 * (l.length / 8))).length then byteOf (l.drop (8 * (l.length / 8))) j
        else 0) 0 := by
    unfold sipPadWord
    dsimp only
    congr 1
    funext j
    have hlen : (l.drop (8 * (l.length / 8))).length = l.length % 8 := by
      rw [List.length_drop]
      omega
    have harg : 8 * (l.length / 8) = l.length - l.length % 8 := by omega
    rw [hlen]
    split_ifs with h7 hlt
    · rfl
    · rw [byteOf_drop, harg]
      unfold byteOf
      omega
    · rfl
  rw [hpad]

/-! C8: scalar and SIMD SipTreeHash agree. -/

theorem lor_split (q b k : Nat) (hb : b < 2 ^ k) : (2 ^ k * q) ||| b = 2 ^ k * q + b := by
  apply Nat.eq_of_testBit_eq
  intro i
  rw [Nat.testBit_or, Nat.testBit_mul_pow_two_add q hb i]
  have hself : (2 ^ k * q).testBit i = if i < k then Nat.testBit 0 i else q.testBit (i - k) := by
    have h0 : (2 ^ k * q + 0).testBit i = if i < k then Nat.testBit 0 i else q.testBit (i - k) :=
      Nat.testBit_mul_pow_two_add q (Nat.two_pow_pos k) i
    simpa using h0
  rw [hself]
  rcases lt_or_ge i k with h | h
  · simp [h]
  · have hbf : b.testBit i = false :=
      Nat.testBit_lt_two_pow (lt_of_lt_of_le hb (Nat.pow_le_pow_right (by norm_num) h))
    simp [Nat.not_lt.mpr h, hbf]

theorem lor_disjoint_add (a b k : Nat) (ha : a % 2 ^ k = 0) (hb : b < 2 ^ k) :
    a ||| b = a + b := by
  obtain ⟨q, hq⟩ : 2 ^ k ∣ a := Nat.dvd_of_mod_eq_zero ha
  subst hq
  exact lor_split q b k hb

theorem rotl64_arith (x b : Nat) (hx : x < M64) (hb : b ≤ 64) :
    rotl64 x b = (x <<< b) % M64 + x >>> (64 - b) := by
  unfold rotl64
  apply lor_disjoint_add _ _ b
  · have hd : (M64 : Nat) = 2 ^ b * 2 ^ (64 - b) := by
      unfold M64
      rw [← pow_add]
      congr 1
      omega
    rw [Nat.shiftLeft_eq, hd, mul_comm x (2 ^ b), Nat.mul_mod_mul_left, Nat.mul_mod_right]
  · rw [Nat.shiftRight_eq_div_pow]
    unfold M64 at hx
    have hd : 2 ^ 64 = 2 ^ (64 - b) * 2 ^ b := by
      rw [← pow_add]
      congr 1
      omega
    rw [hd] at hx
    exact Nat.div_lt_of_lt_mul (by omega)

theorem rotl64_lt (x b : Nat) (hx : x < M64) : rotl64 x b < M64 := by
  unfold rotl64
  apply Nat.or_lt_two_pow (mod_M64_lt _)
  calc x >>> (64 - b) ≤ x := by
        rw [Nat.shiftRight_eq_div_pow]
        exact Nat.div_le_self _ _
    _ < M64 := hx

theorem pshufb_rot16_lo (x y : Nat) (hx : x < M64) :
    AVX2.pshufbLane 0x0504030201000706 x y = rotl64 x 16 := by
  rw [rotl64_arith x 16 hx (by norm_num)]
  unfold AVX2.pshufbLane AVX2.halfByte AVX2.byteN
  norm_num [Nat.shiftRight_eq_div_pow, Nat.shiftLeft_eq]
  unfold M64 at hx ⊢
  omega

theorem pshufb_rot16_hi (x y : Nat) (hy : y < M64) :
    AVX2.pshufbLane 0x0D0C0B0A09080F0E x y = rotl64 y 16 := by
  rw [rotl64_arith y 16 hy (by norm_num)]
  unfold AVX2.pshufbLane AVX2.halfByte AVX2.byteN
  norm_num [Nat.shiftRight_eq_div_pow, Nat.shiftLeft_eq]
  unfold M64 at hy ⊢
  omega

theorem rot64By32A_rotl (x : Nat) (hx : x < M64) : AVX2.rot64By32A x = rotl64 x 32 := by
  rw [rotl64_arith x 32 hx (by norm_num)]
  unfold AVX2.rot64By32A
  have h1 : ((x % M32) <<< 32) % 2 ^ 32 = 0 := by
    rw [Nat.shiftLeft_eq]
    exact Nat.mul_mod_left _ _
  have h2 : x >>> 32 < 2 ^ 32 := by
    rw [Nat.shiftRight_eq_div_pow]
    unfold M64 at hx
    omega
  rw [lor_disjoint_add _ _ 32 h1 h2, shl32_mod]

theorem sipRound_bounded (s : SipSt) (hs : s.bounded) : (sipRound s).bounded := by
  obtain ⟨h0, h1, h2, h3⟩ := hs
  unfold sipRound
  dsimp only
  refine ⟨?_, ?_, ?_, ?_⟩
  · exact mod_M64_lt _
  · exact Nat.xor_lt_two_pow
      (rotl64_lt _ _ (Nat.xor_lt_two_pow (rotl64_lt _ _ h1) (mod_M64_lt _))) (mod_M64_lt _)
  · exact rotl64_lt _ _ (mod_M64_lt _)
  · exact Nat.xor_lt_two_pow
      (rotl64_lt _ _ (Nat.xor_lt_two_pow (rotl64_lt _ _ h3) (mod_M64_lt _))) (mod_M64_lt _)

theorem rot64By32A_mod (a : Nat) : AVX2.rot64By32A (a % M64) = rotl64 (a % M64) 32 :=
  rot64By32A_rotl _ (mod_M64_lt _)

theorem sipRoundV_pack (st : TreeScalar.TreeSts) (hb : st.bounded) :
    TreeSIMD.sipRoundV (packTree st) =
      packTree ⟨sipRound st.s0, sipRound st.s1, sipRound st.s2, sipRound st.s3⟩ := by
  obtain ⟨⟨a0, a1, a2, a3⟩, ⟨b0, b1, b2, b3⟩, ⟨c0, c1, c2, c3⟩, ⟨d0, d1, d2, d3⟩⟩ := hb
  unfold TreeSIMD.sipRoundV sipRound packTree TreeSIMD.rotl64V TreeSIMD.rotl16V TreeSIMD.rot32V
    addL xorL Lanes64.map Lanes64.map2
  dsimp only
  rw [pshufb_rot16_lo st.s0.v3 st.s1.v3 a3, pshufb_rot16_hi st.s0.v3 st.s1.v3 b3,
    pshufb_rot16_lo st.s2.v3 st.s3.v3 c3, pshufb_rot16_hi st.s2.v3 st.s3.v3 d3]
  simp only [rot64By32A_mod]

theorem sipCompress_bounded (n : Nat) (s : SipSt) (hs : s.bounded) :
    (sipCompress n s).bounded := by
  unfold sipCompress
  induction n with
  | zero => exact hs
  | succ k ih =>
    rw [Function.iterate_succ_apply']
    exact sipRound_bounded _ ih

theorem sipUpdate_bounded (s : SipSt) (p : Nat) (hs : s.bounded) (hp : p < M64) :
    (sipUpdate s p).bounded := by
  obtain ⟨h0, h1, h2, h3⟩ := hs
  unfold sipUpdate
  dsimp only
  have hmid : (sipCompress 2 { s with v3 := s.v3 ^^^ p }).bounded :=
    sipCompress_bounded 2 _ ⟨h0, h1, h2, Nat.xor_lt_two_pow h3 hp⟩
  obtain ⟨g0, g1, g2, g3⟩ := hmid
  exact ⟨Nat.xor_lt_two_pow g0 hp, g1, g2, g3⟩

theorem treeUpdateV_pack (st : TreeScalar.TreeSts) (p : Lanes64) (hb : st.bounded)
    (hp : p.bounded) :
    TreeSIMD.treeUpdateV (packTree st) p =
      packTree ⟨sipUpdate st.s0 p.l0, sipUpdate st.s1 p.l1, sipUpdate st.s2 p.l2,
        sipUpdate st.s3 p.l3⟩ := by
  obtain ⟨hs0, hs1, hs2, hs3⟩ := hb
  obtain ⟨hp0, hp1, hp2, hp3⟩ := hp
  unfold TreeSIMD.treeUpdateV sipUpdate sipCompress
  dsimp only
  have hx : xorL (packTree st).v3 p =
      ⟨st.s0.v3 ^^^ p.l0, st.s1.v3 ^^^ p.l1, st.s2.v3 ^^^ p.l2, st.s3.v3 ^^^ p.l3⟩ := rfl
  have hst1 : TreeScalar.TreeSts.bounded
      ⟨{ st.s0 with v3 := st.s0.v3 ^^^ p.l0 }, { st.s1 with v3 := st.s1.v3 ^^^ p.l1 },
       { st.s2 with v3 := st.s2.v3 ^^^ p.l2 }, { st.s3 with v3 := st.s3.v3 ^^^ p.l3 }⟩ :=
    ⟨⟨hs0.1, hs0.2.1, hs0.2.2.1, Nat.xor_lt_two_pow hs0.2.2.2 hp0⟩,
     ⟨hs1.1, hs1.2.1, hs1.2.2.1, Nat.xor_lt_two_pow hs1.2.2.2 hp1⟩,
     ⟨hs2.1, hs2.2.1, hs2.2.2.1, Nat.xor_lt_two_pow hs2.2.2.2 hp2⟩,
     ⟨hs3.1, hs3.2.1, hs3.2.2.1, Nat.xor_lt_two_pow hs3.2.2.2 hp3⟩⟩
  have hpk : { packTree st with v3 := xorL (packTree st).v3 p } =
      packTree ⟨{ st.s0 with v3 := st.s0.v3 ^^^ p.l0 }, { st.s1 with v3 := st.s1.v3 ^^^ p.l1 },
        { st.s2 with v3 := st.s2.v3 ^^^ p.l2 }, { st.s3 with v3 := st.s3.v3 ^^^ p.l3 }⟩ := rfl
  rw [hpk, sipRoundV_pack _ hst1, sipRoundV_pack _
    ⟨sipRound_bounded _ hst1.1, sipRound_bounded _ hst1.2.1, sipRound_bounded _ hst1.2.2.1,
      sipRound_bounded _ hst1.2.2.2⟩]
  rfl

theorem r32_lt (m : Nat → Nat) (i : Nat) : r32 m i < M32 := by
  unfold r32 M32
  omega

theorem r64_lt (m : Nat → Nat) (i : Nat) : r64 m i < M64 := by
  unfold r64
  have h1 := r32_lt m i
  have h2 := r32_lt m (i + 4)
  unfold M32 at h1 h2
  unfold M64
  omega

theorem packetAt_bounded (m : Nat → Nat) (off : Nat) : (packetAt m off).bounded :=
  ⟨r64_lt _ _, r64_lt _ _, r64_lt _ _, r64_lt _ _⟩

theorem treeUpdate_bounded (st : TreeScalar.TreeSts) (p : Lanes64) (hb : st.bounded)
    (hp : p.bounded) :
    TreeScalar.TreeSts.bounded ⟨sipUpdate st.s0 p.l0, sipUpdate st.s1 p.l1,
      sipUpdate st.s2 p.l2, sipUpdate st.s3 p.l3⟩ :=
  ⟨sipUpdate_bounded _ _ hb.1 hp.1, sipUpdate_bounded _ _ hb.2.1 hp.2.1,
   sipUpdate_bounded _ _ hb.2.2.1 hp.2.2.1, sipUpdate_bounded _ _ hb.2.2.2 hp.2.2.2⟩

theorem treeLoopS_pack (m : Nat → Nat) (count : Nat) :
    ∀ off st, TreeScalar.TreeSts.bounded st →
      TreeSIMD.treeLoopV m off count (packTree st) =
        packTree (TreeScalar.treeLoopS m off count st) := by
  induction count with
  | zero =>
    intro off st _
    rw [TreeSIMD.treeLoopV, TreeScalar.treeLoopS]
  | succ n ih =>
    intro off st hb
    rw [TreeSIMD.treeLoopV, TreeScalar.treeLoopS]
    have hup := treeUpdateV_pack st (packetAt m off) hb (packetAt_bounded m off)
    have harg : packetAt m off = ⟨r64 m off, r64 m (off + 8), r64 m (off + 16),
        r64 m (off + 24)⟩ := rfl
    rw [hup]
    exact ih (off + 32) _ (treeUpdate_bounded st _ hb (packetAt_bounded m off))

theorem treeLoopS_bounded (m : Nat → Nat) (count : Nat) :
    ∀ off st, TreeScalar.TreeSts.bounded st →
      TreeScalar.TreeSts.bounded (TreeScalar.treeLoopS m off count st) := by
  induction count with
  | zero => intro off st hb; rw [TreeScalar.treeLoopS]; exact hb
  | succ n ih =>
    intro off st hb
    rw [TreeScalar.treeLoopS]
    refine ih (off + 32) _ ⟨?_, ?_, ?_, ?_⟩
    · exact sipUpdate_bounded _ _ hb.1 (r64_lt m off)
    · exact sipUpdate_bounded _ _ hb.2.1 (r64_lt m (off + 8))
    · exact sipUpdate_bounded _ _ hb.2.2.1 (r64_lt m (off + 16))
    · exact sipUpdate_bounded _ _ hb.2.2.2 (r64_lt m (off + 24))

theorem loadFinalPacket_eq (m : Nat → Nat) (size : Nat) :
    TreeSIMD.loadFinalPacket32V (fun i => m (size - size % 32 + i)) size (size % 32) =
      TreeScalar.treeFinalPacketS m size := by
  unfold TreeSIMD.loadFinalPacket32V TreeScalar.treeFinalPacketS
  dsimp only
  have hc4 : (size % 32 - size % 32 % 4) % 4 = 0 := by omega
  have hr32 : (size % 32) >>> 2 = size % 32 / 4 := Nat.shiftRight_eq_div_pow _ 2
  unfold r64
  rw [r32_bufP _ _ 0 hc4 (by omega), r32_bufP _ _ 4 hc4 (by omega),
    r32_bufP _ _ 8 hc4 (by omega), r32_bufP _ _ 12 hc4 (by omega),
    r32_bufP _ _ 16 hc4 (by omega), r32_bufP _ _ 20 hc4 (by omega),
    r32_bufP _ _ 24 hc4 (by omega)]
  have hp4 : TreeScalar.packet4Of (fun i => m (size - size % 32 + i)) ((size % 32) >>> 2 * 4)
      (size % 32) (size % 32 % 4) =
      TreeScalar.packet4Of m (size - size % 32 % 4) (size % 32) (size % 32 % 4) := by
    unfold TreeScalar.packet4Of
    dsimp only
    have ha0 : size - size % 32 + ((size % 32) >>> 2 * 4) = size - size % 32 % 4 := by
      rw [hr32]
      omega
    have ha1 : size - size % 32 + ((size % 32) >>> 2 * 4 + 1) = size - size % 32 % 4 + 1 := by
      rw [hr32]
      omega
    have ha2 : size - size % 32 + ((size % 32) >>> 2 * 4 + 2) = size - size % 32 % 4 + 2 := by
      rw [hr32]
      omega
    rw [ha0, ha1, ha2]
  rw [hp4]
  simp only [Lanes64.mk.injEq]
  norm_num
  refine ⟨?_, ?_, ?_, ?_⟩ <;> rw [hr32] <;> split_ifs <;> omega

theorem packet4Of_lt (m : Nat → Nat) (a b c : Nat) : TreeScalar.packet4Of m a b c < M32 := by
  unfold TreeScalar.packet4Of
  exact Nat.mod_lt _ (by norm_num [M32])

theorem treeFinalPacketS_bounded (m : Nat → Nat) (size : Nat) :
    (TreeScalar.treeFinalPacketS m size).bounded := by
  unfold TreeScalar.treeFinalPacketS Lanes64.bounded
  dsimp only
  refine ⟨r64_lt _ _, r64_lt _ _, r64_lt _ _, ?_⟩
  have h1 := r32_lt (Portable.bufP (fun i => m (size - size % 32 + i))
    (size % 32 - size % 32 % 4)) 24
  have h2 := packet4Of_lt m (size - size % 32 % 4) (size % 32) (size % 32 % 4)
  unfold M64 M32 at *
  omega

theorem treeFinalizeV_pack (st : TreeScalar.TreeSts) (hb : st.bounded) :
    TreeSIMD.treeFinalizeV (packTree st) =
      ⟨sipFinalize st.s0, sipFinalize st.s1, sipFinalize st.s2, sipFinalize st.s3⟩ := by
  obtain ⟨hs0, hs1, hs2, hs3⟩ := hb
  unfold TreeSIMD.treeFinalizeV sipFinalize sipCompress
  dsimp only
  have hff : (0xFF : Nat) < M64 := by norm_num [M64]
  have hpk : { packTree st with
        v2 := xorL (packTree st).v2 (Lanes64.map (fun _ => 0xFF) (packTree st).v2) } =
      packTree ⟨{ st.s0 with v2 := st.s0.v2 ^^^ 0xFF }, { st.s1 with v2 := st.s1.v2 ^^^ 0xFF },
        { st.s2 with v2 := st.s2.v2 ^^^ 0xFF }, { st.s3 with v2 := st.s3.v2 ^^^ 0xFF }⟩ := rfl
  have hb1 : TreeScalar.TreeSts.bounded
      ⟨{ st.s0 with v2 := st.s0.v2 ^^^ 0xFF }, { st.s1 with v2 := st.s1.v2 ^^^ 0xFF },
       { st.s2 with v2 := st.s2.v2 ^^^ 0xFF }, { st.s3 with v2 := st.s3.v2 ^^^ 0xFF }⟩ :=
    ⟨⟨hs0.1, hs0.2.1, Nat.xor_lt_two_pow hs0.2.2.1 hff, hs0.2.2.2⟩,
     ⟨hs1.1, hs1.2.1, Nat.xor_lt_two_pow hs1.2.2.1 hff, hs1.2.2.2⟩,
     ⟨hs2.1, hs2.2.1, Nat.xor_lt_two_pow hs2.2.2.1 hff, hs2.2.2.2⟩,
     ⟨hs3.1, hs3.2.1, Nat.xor_lt_two_pow hs3.2.2.1 hff, hs3.2.2.2⟩⟩
  have hb2 : TreeScalar.TreeSts.bounded
      ⟨sipRound _, sipRound _, sipRound _, sipRound _⟩ :=
    ⟨sipRound_bounded _ hb1.1, sipRound_bounded _ hb1.2.1,
     sipRound_bounded _ hb1.2.2.1, sipRound_bounded _ hb1.2.2.2⟩
  have hb3 : TreeScalar.TreeSts.bounded
      ⟨sipRound _, sipRound _, sipRound _, sipRound _⟩ :=
    ⟨sipRound_bounded _ hb2.1, sipRound_bounded _ hb2.2.1,
     sipRound_bounded _ hb2.2.2.1, sipRound_bounded _ hb2.2.2.2⟩
  have hb4 : TreeScalar.TreeSts.bounded
      ⟨sipRound _, sipRound _, sipRound _, sipRound _⟩ :=
    ⟨sipRound_bounded _ hb3.1, sipRound_bounded _ hb3.2.1,
     sipRound_bounded _ hb3.2.2.1, sipRound_bounded _ hb3.2.2.2⟩
  rw [hpk, sipRoundV_pack _ hb1, sipRoundV_pack _ hb2, sipRoundV_pack _ hb3,
    sipRoundV_pack _ hb4]
  rfl

theorem treeNewV_pack (key : Lanes64) :
    TreeSIMD.treeNewV key =
      packTree ⟨TreeScalar.treeNewS key 0, TreeScalar.treeNewS key 1,
        TreeScalar.treeNewS key 2, TreeScalar.treeNewS key 3⟩ := rfl

theorem treeNewS_bounded (key : Lanes64) (lane : Nat) (hk : key.bounded) (hl : lane < 4) :
    (TreeScalar.treeNewS key lane).bounded := by
  obtain ⟨h0, h1, h2, h3⟩ := hk
  interval_cases lane <;>
    exact ⟨Nat.xor_lt_two_pow (by decide) (Nat.xor_lt_two_pow (by assumption) (by decide)),
           Nat.xor_lt_two_pow (by decide) (Nat.xor_lt_two_pow (by assumption) (by decide)),
           Nat.xor_lt_two_pow (by decide) (Nat.xor_lt_two_pow (by assumption) (by decide)),
           Nat.xor_lt_two_pow (by decide) (Nat.xor_lt_two_pow (by assumption) (by decide))⟩

/-- **C8.** For every 4-lane key (of valid `uint64_t` lanes) and every input
length in `[0, 128]` with arbitrary byte contents, the scalar SipTreeHash
(four scalar SipHash-2-4 states keyed `key[lane] ^ (4 | lane)`, round-robin
dispatch of the 8-byte words of each 32-byte packet, padded final packet,
four finalized lane hashes reduced by one single-lane SipHash keyed with key
lanes 0 and 1) returns the same 64-bit value as the SIMD SipTreeHash built
on 4×64-bit vectors. -/
theorem C8_siptree_scalar_equivalence (key : Lanes64) (m : Nat → Nat) (size : Nat)
    (hk : key.bounded) (hsize : size ≤ 128) :
    TreeScalar.scalarSipTreeHash key m size = TreeSIMD.sipTreeHash key m size := by
  unfold TreeScalar.scalarSipTreeHash TreeSIMD.sipTreeHash
  dsimp only
  have hb0 : TreeScalar.TreeSts.bounded
      ⟨TreeScalar.treeNewS key 0, TreeScalar.treeNewS key 1,
       TreeScalar.treeNewS key 2, TreeScalar.treeNewS key 3⟩ :=
    ⟨treeNewS_bounded key 0 hk (by norm_num), treeNewS_bounded key 1 hk (by norm_num),
     treeNewS_bounded key 2 hk (by norm_num), treeNewS_bounded key 3 hk (by norm_num)⟩
  rw [treeNewV_pack key, treeLoopS_pack m ((size - size % 32) / 32) 0 _ hb0]
  have hb1 := treeLoopS_bounded m ((size - size % 32) / 32) 0 _ hb0
  rw [loadFinalPacket_eq m size,
    treeUpdateV_pack _ _ hb1 (treeFinalPacketS_bounded m size),
    treeFinalizeV_pack _ (treeUpdate_bounded _ _ hb1 (treeFinalPacketS_bounded m size))]

/-- Witness for C8 at a concrete key, memory and size. -/
theorem C8_siptree_scalar_equivalence_witness :
    Lanes64.bounded ⟨1, 2, 3, 4⟩ ∧ (33 : Nat) ≤ 128 ∧
      TreeScalar.scalarSipTreeHash ⟨1, 2, 3, 4⟩ (fun i => i % 256) 33 =
        TreeSIMD.sipTreeHash ⟨1, 2, 3, 4⟩ (fun i => i % 256) 33 :=
  ⟨by decide, by decide,
    C8_siptree_scalar_equivalence ⟨1, 2, 3, 4⟩ (fun i => i % 256) 33 (by decide) (by decide)⟩

/-! C2: `HighwayHashCatT` over any fragmentation equals the one-shot hash. -/

theorem byteOf_append_left (l f : List Nat) (i : Nat) (hi : i < l.length) :
    byteOf (l ++ f) i = byteOf l i := by
  unfold byteOf
  rw [List.getD_eq_getElem?_getD, List.getD_eq_getElem?_getD, List.getElem?_append_left hi]

theorem byteOf_append_right (l f : List Nat) (i : Nat) :
    byteOf (l ++ f) (l.length + i) = byteOf f i := by
  unfold byteOf
  rw [List.getD_eq_getElem?_getD, List.getD_eq_getElem?_getD,
    List.getElem?_append_right (by omega), show l.length + i - l.length = i from by omega]

theorem byteOf_drop_fun (l : List Nat) (k : Nat) :
    byteOf (l.drop k) = fun j => byteOf l (k + j) :=
  funext fun j => byteOf_drop l k j

theorem r32_shift (m : Nat → Nat) (k a : Nat) :
    r32 (fun j => m (k + j)) a = r32 m (k + a) := by
  unfold r32
  dsimp only
  simp only [← Nat.add_assoc]

theorem r64_shift (m : Nat → Nat) (k a : Nat) :
    r64 (fun j => m (k + j)) a = r64 m (k + a) := by
  unfold r64
  rw [r32_shift m k a, r32_shift m k (a + 4)]
  simp only [← Nat.add_assoc]

theorem packetAt_shift (m : Nat → Nat) (k off : Nat) :
    packetAt (fun j => m (k + j)) off = packetAt m (k + off) := by
  unfold packetAt
  rw [r64_shift m k off, r64_shift m k (off + 8), r64_shift m k (off + 16),
    r64_shift m k (off + 24)]
  simp only [← Nat.add_assoc]

theorem updLoop_shift {St : Type} (upd : St → Lanes64 → St) (m : Nat → Nat) (k count : Nat) :
    ∀ off s, updLoop upd (fun j => m (k + j)) off count s =
      updLoop upd m (k + off) count s := by
  induction count with
  | zero => intro off s; rw [updLoop, updLoop]
  | succ n ih =>
    intro off s
    rw [updLoop, updLoop, packetAt_shift m k off, ih (off + 32),
      show k + (off + 32) = k + off + 32 from by omega]

theorem updLoop_append {St : Type} (upd : St → Lanes64 → St) (m : Nat → Nat) (a b : Nat) :
    ∀ off s, updLoop upd m off (a + b) s =
      updLoop upd m (off + 32 * a) b (updLoop upd m off a s) := by
  induction a with
  | zero =>
    intro off s
    rw [Nat.zero_add, Nat.mul_zero, Nat.add_zero, updLoop]
  | succ n ih =>
    intro off s
    rw [show n + 1 + b = (n + b) + 1 from by omega, updLoop, ih (off + 32), updLoop,
      show off + 32 + 32 * n = off + 32 * (n + 1) from by omega]

theorem catLoop_eq {St : Type} (upd : St → Lanes64 → St) (count : Nat) :
    ∀ (l : List Nat) (s : St), l.length / 32 = count →
      catLoop upd s l = (updLoop upd (byteOf l) 0 count s, l.drop (32 * count)) := by
  induction count with
  | zero =>
    intro l s hc
    rw [catLoop, dif_neg (by omega), updLoop, Nat.mul_zero, List.drop_zero]
  | succ n ih =>
    intro l s hc
    have h32 : 32 ≤ l.length := by omega
    rw [catLoop, dif_pos h32,
      ih (l.drop 32) (upd s (packetAt (byteOf l) 0)) (by rw [List.length_drop]; omega),
      updLoop, byteOf_drop_fun l 32,
      updLoop_shift upd (byteOf l) 32 n 0 (upd s (packetAt (byteOf l) 0)),
      List.drop_drop]
    simp only [Prod.mk.injEq]
    refine ⟨trivial, ?_⟩
    rw [show 32 + 32 * n = 32 * (n + 1) from by omega]

theorem byteOf_take (f : List Nat) (k i : Nat) (hi : i < k) :
    byteOf (f.take k) i = byteOf f i := by
  unfold byteOf
  rw [List.getD_eq_getElem?_getD, List.getD_eq_getElem?_getD, List.getElem?_take, if_pos hi]

theorem updLoop_one {St : Type} (upd : St → Lanes64 → St) (m : Nat → Nat) (off : Nat)
    (s : St) : updLoop upd m off 1 s = upd s (packetAt m off) := by
  have h : updLoop upd m off (0 + 1) s = upd s (packetAt m off) := by
    rw [updLoop, updLoop]
  exact h

theorem updLoop_at_append (l f : List Nat) (k cnt : Nat) (s : HHSt) :
    updLoop Portable.updateP (byteOf (l ++ f)) (l.length + k) cnt s =
      updLoop Portable.updateP (byteOf (f.drop k)) 0 cnt s := by
  rw [byteOf_drop_fun f k, updLoop_shift Portable.updateP (byteOf f) k cnt 0 s,
    ← updLoop_shift Portable.updateP (byteOf (l ++ f)) l.length cnt k s,
    funext fun j => byteOf_append_right l f j, show k + 0 = k from by omega]

theorem packetAt_filled (l f : List Nat) :
    packetAt (byteOf (l ++ f)) (l.length - l.length % 32) =
      packetAt (byteOf (l.drop (l.length - l.length % 32) ++
        f.take (32 - l.length % 32))) 0 := by
  have hsh := packetAt_shift (byteOf (l ++ f)) (l.length - l.length % 32) 0
  rw [Nat.add_zero] at hsh
  rw [← hsh]
  refine packetAt_congr _ _ 32 0 ?_ (by omega)
  intro i hi
  dsimp only
  by_cases hir : i < l.length % 32
  · rw [byteOf_append_left (l.drop (l.length - l.length % 32))
        (f.take (32 - l.length % 32)) i (by rw [List.length_drop]; omega),
      byteOf_drop, byteOf_append_left l f _ (by omega)]
  · have e1 := byteOf_append_right l f (i - l.length % 32)
    rw [show l.length + (i - l.length % 32) = l.length - l.length % 32 + i from by omega]
      at e1
    have e2 := byteOf_append_right (l.drop (l.length - l.length % 32))
      (f.take (32 - l.length % 32)) (i - l.length % 32)
    rw [List.length_drop,
      show l.length - (l.length - l.length % 32) = l.length % 32 from by omega,
      show l.length % 32 + (i - l.length % 32) = i from by omega] at e2
    rw [e1, e2, byteOf_take f (32 - l.length % 32) (i - l.length % 32) (by omega)]

theorem catAppend_step (key : Lanes64) (l f : List Nat) :
    catAppend Portable.updateP (catOfP key l) f = catOfP key (l ++ f) := by
  unfold catAppend catOfP
  dsimp only
  rw [List.length_drop,
    show l.length - (l.length - l.length % 32) = l.length % 32 from by omega]
  have hN : (l ++ f).length = l.length + f.length := List.length_append l f
  by_cases hr : l.length % 32 ≠ 0
  · rw [if_pos hr]
    by_cases hcap : f.length < 32 - l.length % 32
    · rw [if_pos hcap]
      have ht : (l ++ f).length - (l ++ f).length % 32 = l.length - l.length % 32 := by
        rw [hN]
        omega
      rw [ht, List.drop_append_of_le_length (by omega),
        updLoop_congr (byteOf (l ++ f)) (byteOf l) (l.length - l.length % 32)
          (fun i hi => byteOf_append_left l f i (by omega))
          ((l.length - l.length % 32) / 32) 0 (Portable.hhNewP key) (by omega)]
    · rw [if_neg hcap]
      rw [catLoop_eq Portable.updateP ((f.length - (32 - l.length % 32)) / 32)
        (f.drop (32 - l.length % 32)) _ (by rw [List.length_drop])]
      dsimp only
      have hTc : ((l ++ f).length - (l ++ f).length % 32) / 32 =
          ((l.length - l.length % 32) / 32 + 1) +
            (f.length - (32 - l.length % 32)) / 32 := by
        rw [hN]
        omega
      rw [hTc, updLoop_append Portable.updateP (byteOf (l ++ f))
          ((l.length - l.length % 32) / 32 + 1) ((f.length - (32 - l.length % 32)) / 32)
          0 (Portable.hhNewP key),
        updLoop_append Portable.updateP (byteOf (l ++ f)) ((l.length - l.length % 32) / 32)
          1 0 (Portable.hhNewP key),
        updLoop_congr (byteOf (l ++ f)) (byteOf l) (l.length - l.length % 32)
          (fun i hi => byteOf_append_left l f i (by omega))
          ((l.length - l.length % 32) / 32) 0 (Portable.hhNewP key) (by omega),
        updLoop_one,
        show 0 + 32 * ((l.length - l.length % 32) / 32) = l.length - l.length % 32
          from by omega,
        packetAt_filled l f,
        show 0 + 32 * ((l.length - l.length % 32) / 32 + 1) =
          l.length + (32 - l.length % 32) from by omega,
        updLoop_at_append l f (32 - l.length % 32) ((f.length - (32 - l.length % 32)) / 32),
        show (l ++ f).length - (l ++ f).length % 32 =
          l.length + ((32 - l.length % 32) +
            32 * ((f.length - (32 - l.length % 32)) / 32)) from by rw [hN]; omega,
        List.drop_append, ← List.drop_drop]
  · rw [if_neg hr]
    rw [catLoop_eq Portable.updateP (f.length / 32) f _ rfl]
    dsimp only
    rw [show ((l ++ f).length - (l ++ f).length % 32) / 32 =
        (l.length - l.length % 32) / 32 + f.length / 32 from by rw [hN]; omega,
      updLoop_append Portable.updateP (byteOf (l ++ f)) ((l.length - l.length % 32) / 32)
        (f.length / 32) 0 (Portable.hhNewP key),
      updLoop_congr (byteOf (l ++ f)) (byteOf l) l.length
        (fun i hi => byteOf_append_left l f i hi)
        ((l.length - l.length % 32) / 32) 0 (Portable.hhNewP key) (by omega),
      show 0 + 32 * ((l.length - l.length % 32) / 32) = l.length + 0 from by omega,
      updLoop_at_append l f 0 (f.length / 32), List.drop_zero,
      show (l ++ f).length - (l ++ f).length % 32 = l.length + 32 * (f.length / 32)
        from by rw [hN]; omega,
      List.drop_append]

theorem catFinalize_eq {R : Type} (fin : HHSt → R) (key : Lanes64) (l : List Nat) :
    catFinalize Portable.updateRemainderP fin (catOfP key l) =
      highwayHashT Portable.updateP Portable.updateRemainderP fin (Portable.hhNewP key)
        (byteOf l) l.length := by
  unfold catFinalize highwayHashT catOfP
  dsimp only
  rw [List.length_drop,
    show l.length - (l.length - l.length % 32) = l.length % 32 from by omega]
  by_cases hr : l.length % 32 ≠ 0
  · rw [if_pos hr, if_pos hr, byteOf_drop_fun l (l.length - l.length % 32)]
  · rw [if_neg hr, if_neg hr]

theorem cat_foldl (key : Lanes64) (frags : List (List Nat)) :
    ∀ l, frags.foldl (catAppend Portable.updateP) (catOfP key l) =
      catOfP key (l ++ frags.flatten) := by
  induction frags with
  | nil => intro l; simp
  | cons f fs ih =>
    intro l
    rw [List.foldl_cons, catAppend_step key l f, ih (l ++ f), List.flatten_cons,
      List.append_assoc]

/-- **C2.** For every key and every partition of a byte string into fragments
(of any sizes, empty fragments allowed), constructing `HighwayHashCatT` with
the key, calling `Append` on each fragment in order and then `Finalize`
yields exactly the same 64-, 128- and 256-bit digest as `HighwayHashT`
applied once, with a fresh state of the same key, to the concatenation of
the fragments. -/
theorem C2_cat_equals_oneshot (key : Lanes64) (frags : List (List Nat)) :
    catFinalize Portable.updateRemainderP Portable.finalize64P
        (frags.foldl (catAppend Portable.updateP) (catNewP key)) =
      hash64P key (byteOf frags.flatten) frags.flatten.length ∧
    catFinalize Portable.updateRemainderP Portable.finalize128P
        (frags.foldl (catAppend Portable.updateP) (catNewP key)) =
      hash128P key (byteOf frags.flatten) frags.flatten.length ∧
    catFinalize Portable.updateRemainderP Portable.finalize256P
        (frags.foldl (catAppend Portable.updateP) (catNewP key)) =
      hash256P key (byteOf frags.flatten) frags.flatten.length := by
  have h0 : catNewP key = catOfP key [] := rfl
  have hfold : frags.foldl (catAppend Portable.updateP) (catNewP key) =
      catOfP key frags.flatten := by
    rw [h0, cat_foldl key frags [], List.nil_append]
  rw [hfold]
  exact ⟨catFinalize_eq Portable.finalize64P key frags.flatten,
    catFinalize_eq Portable.finalize128P key frags.flatten,
    catFinalize_eq Portable.finalize256P key frags.flatten⟩
